import Mathlib

/-!
# country-api: the expiring in-memory cache and the lookup service

A shallow embedding of `internal/cache/cache.go`,
`internal/service/country_service.go`, `internal/handler/country_handler.go` and
the record mapping of `internal/client/countries_client.go`.

Modelling conventions.

* An instant (`time.Time`) and a duration (`time.Duration`) are integers counting
  nanoseconds on one time line; `t.Add(d)` is `t + d` and `t.After(u)` is `u < t`.
  Every method that calls `time.Now()` receives the instant it reads as the
  argument `now`.
* A Go `map[string]V` is a finite list of key/value pairs with pairwise different
  keys. The order of the list is an artefact of the model: no definition below
  depends on it except through `range`, and `removeExpired` is shown not to
  depend on the order in which `range` visits the entries.
* An `interface{}` holding a value of the payload type `α` is `Option α`, the nil
  interface being `none`.
* Each method runs under the cache's lock, so a method body is one atomic step of
  the state; a panic is the `Except.error` result.
-/

namespace CountryApi

/-! ## Time -/

/-- An instant, `time.Time`, in nanoseconds. -/
abbrev Time := Int

/-- A span of time, `time.Duration`, in nanoseconds. -/
abbrev Duration := Int

/-- The method `t.Add(d)` of `time.Time`. -/
def Time.Add (t : Time) (d : Duration) : Time := t + d

/-- The method `t.After(u)` of `time.Time`: is `t` strictly later than `u`. -/
def Time.After (t u : Time) : Bool := decide (u < t)

/-! ## Go maps with string keys -/

/-- A Go `map[string]β`: the entries held, no two of them under the same key. -/
structure GoMap (β : Type) where
  entries : List (String × β)
  nodup : entries.Pairwise (fun a b => a.1 ≠ b.1)

namespace GoMap

variable {β : Type}

/-- The call `make(map[string]β)`: the map without entries. -/
def make : GoMap β := ⟨[], List.Pairwise.nil⟩

/-- The first value stored under `key` in a list of entries. -/
def find (key : String) : List (String × β) → Option β
  | [] => none
  | e :: rest => if e.1 = key then some e.2 else find key rest

/-- The comma-ok read `v, ok := m[key]`: `some v` when `ok`, `none` otherwise. -/
def get (m : GoMap β) (key : String) : Option β := find key m.entries

/-- The statement `delete(m, key)`. -/
def delete (m : GoMap β) (key : String) : GoMap β :=
  ⟨m.entries.filter (fun e => decide (e.1 ≠ key)), m.nodup.filter _⟩

/-- The statement `m[key] = v`: any entry under `key` is replaced by the new one. -/
def set (m : GoMap β) (key : String) (v : β) : GoMap β :=
  ⟨(key, v) :: (m.delete key).entries,
    List.pairwise_cons.2 ⟨fun e he h => by
      have h2 := (List.mem_filter.1 he).2
      simp only [decide_eq_true_eq] at h2
      exact h2 h.symm, (m.delete key).nodup⟩⟩

/-- The value of `len(m)`. -/
def len (m : GoMap β) : Nat := m.entries.length

end GoMap

/-! ## internal/cache/cache.go -/

/-- The state of a Go channel that nothing is ever sent on. -/
inductive Chan where
  | isOpen
  | closed
  deriving DecidableEq, Repr

/-- Single cache item: `value interface{}` and `expiration time.Time`. -/
structure cacheItem (α : Type) where
  value : Option α
  expiration : Time
  deriving DecidableEq, Repr

/-- The struct `InMemoryCache`: `items`, `ttl` and `stopChan` (the lock `mu` is
what makes each method one atomic step). -/
structure InMemoryCache (α : Type) where
  items : GoMap (cacheItem α)
  ttl : Duration
  stopChan : Chan

namespace InMemoryCache

variable {α : Type}

/-- The method `Get`, reading the clock at `now`: a miss `(nil, false)` when the
key has no item or `now` is after the item's expiration, else the value and `true`. -/
def Get (c : InMemoryCache α) (now : Time) (key : String) : Option α × Bool :=
  match c.items.get key with
  | none => (none, false)
  | some item => if Time.After now item.expiration then (none, false) else (item.value, true)

/-- The method `Set`, reading the clock at `now`. -/
def Set (c : InMemoryCache α) (now : Time) (key : String) (value : Option α) :
    InMemoryCache α :=
  { c with items := c.items.set key { value := value, expiration := Time.Add now c.ttl } }

/-- The loop of `removeExpired` over the entries in the order `visit`: an entry
whose expiration `now` is after is deleted from the map by its key. -/
def rangeDelete (now : Time) :
    List (String × cacheItem α) → GoMap (cacheItem α) → GoMap (cacheItem α)
  | [], m => m
  | e :: rest, m =>
      rangeDelete now rest (if Time.After now e.2.expiration then m.delete e.1 else m)

/-- The method `removeExpired`, reading the clock at `now`, when `range` visits
the entries in the order `visit`. -/
def removeExpiredIn (visit : List (String × cacheItem α)) (c : InMemoryCache α)
    (now : Time) : InMemoryCache α :=
  { c with items := rangeDelete now visit c.items }

/-- The method `removeExpired`, reading the clock at `now`; `range` visits the
entries in the order of the model's list. -/
def removeExpired (c : InMemoryCache α) (now : Time) : InMemoryCache α :=
  removeExpiredIn c.items.entries c now

/-- The method `Size`. -/
def Size (c : InMemoryCache α) : Nat := c.items.len

/-- The method `Stop`: `close(c.stopChan)`, which panics on a closed channel. -/
def Stop (c : InMemoryCache α) : Except String (InMemoryCache α) :=
  match c.stopChan with
  | Chan.closed => Except.error "close of closed channel"
  | Chan.isOpen => Except.ok { c with stopChan := Chan.closed }

end InMemoryCache

/-- The call `time.NewTicker(d)` of the Go library: it panics unless `d` is positive. -/
def NewTicker (d : Duration) : Except String Duration :=
  if d ≤ 0 then Except.error "non-positive interval for NewTicker" else Except.ok d

/-- The cache together with its `cleanup` goroutine: `ticker` is the interval of
the goroutine's ticker, and `cleanupAlive` says that the goroutine has not returned. -/
structure Process (α : Type) where
  cache : InMemoryCache α
  ticker : Duration
  cleanupAlive : Bool

/-- The function `NewInMemoryCache` with the first statement of the goroutine it
starts, `time.NewTicker(c.ttl / 2)`; Go's `/` on integers truncates. A panic in
the goroutine ends the program. -/
def NewInMemoryCache (α : Type) (ttl : Duration) : Except String (Process α) :=
  match NewTicker (Int.tdiv ttl 2) with
  | Except.error e => Except.error e
  | Except.ok d =>
      Except.ok
        { cache := { items := GoMap.make, ttl := ttl, stopChan := Chan.isOpen }
          ticker := d
          cleanupAlive := true }

/-- What happens to a cache: a call of one of its methods, or the `select` of
the `cleanup` goroutine taking one of its two cases. -/
inductive Op (α : Type) where
  | get (now : Time) (key : String)
  | set (now : Time) (key : String) (value : Option α)
  | size
  | tick (now : Time)
  | stopSeen
  | stop

/-- What an operation hands back to its caller. -/
inductive Out (α : Type) where
  | got (value : Option α) (found : Bool)
  | count (n : Nat)
  | done
  deriving DecidableEq, Repr

/-- One operation on the process. `tick now` is the case `<-ticker.C` of
`cleanup` (it runs `removeExpired`, which reads the clock at `now`) and is taken
only while the goroutine is alive; `stopSeen` is the case `<-c.stopChan`, ready
only once the channel is closed, after which the goroutine has returned. -/
def step (p : Process α) : Op α → Except String (Process α × Out α)
  | Op.get now key =>
      let r := p.cache.Get now key
      Except.ok (p, Out.got r.1 r.2)
  | Op.set now key value => Except.ok ({ p with cache := p.cache.Set now key value }, Out.done)
  | Op.size => Except.ok (p, Out.count p.cache.Size)
  | Op.tick now =>
      if p.cleanupAlive then
        Except.ok ({ p with cache := p.cache.removeExpired now }, Out.done)
      else Except.ok (p, Out.done)
  | Op.stopSeen =>
      match p.cache.stopChan with
      | Chan.closed => Except.ok ({ p with cleanupAlive := false }, Out.done)
      | Chan.isOpen => Except.ok (p, Out.done)
  | Op.stop =>
      match p.cache.Stop with
      | Except.error e => Except.error e
      | Except.ok c => Except.ok ({ p with cache := c }, Out.done)

/-- The operations of a list one after the other, stopping at the first panic. -/
def run (p : Process α) : List (Op α) → Except String (Process α)
  | [] => Except.ok p
  | op :: rest =>
      match step p op with
      | Except.error e => Except.error e
      | Except.ok (q, _) => run q rest

/-- The time of the last `Set` on `key` among operations listed in the order
they ran, when there is one. -/
def lastSet (key : String) : List (Op α) → Option Time
  | [] => none
  | op :: rest =>
      match lastSet key rest with
      | some s => some s
      | none =>
          match op with
          | Op.set now k _ => if k = key then some now else none
          | _ => none

/-- Is the operation a call of `Stop`. -/
def Op.isStop : Op α → Bool
  | Op.stop => true
  | _ => false

/-! ## internal/models -/

/-- The struct `models.Country`, the response returned by the API. -/
structure Country where
  Name : String
  Capital : String
  Currency : String
  Population : Int
  deriving DecidableEq, Repr

/-- A Go `error` value: the four sentinels of `models/errors.go`, an error made by
`fmt.Errorf` with `%w` around another one, or any other error. -/
inductive GoError where
  | ErrCountryNotFound
  | ErrInvalidRequest
  | ErrAPIFailure
  | ErrTimeout
  | wrap (msg : String) (inner : GoError)
  | other (msg : String)
  deriving DecidableEq, Repr

/-- What an `interface{}` of the cache can hold: a `*models.Country` (`none` is
the nil pointer, `some r` a pointer to the record `r`), or a value of another type. -/
inductive Dyn where
  | countryPtr (ptr : Option Country)
  | other (repr : String)
  deriving DecidableEq, Repr

/-- The type assertion `cached.(*models.Country)` in its comma-ok form. -/
def Dyn.asCountryPtr : Option Dyn → Option Country × Bool
  | some (Dyn.countryPtr ptr) => (ptr, true)
  | _ => (none, false)

/-! ## internal/service/country_service.go -/

/-- The library function `strings.TrimSpace` on text that is valid UTF-8: the
white space at both ends is cut off. `isSpace` is `unicode.IsSpace`, a table of
the Go library. -/
def TrimSpace (isSpace : Char → Bool) (s : String) : String :=
  ⟨((s.data.dropWhile isSpace).reverse.dropWhile isSpace).reverse⟩

/-- The library function `strings.ToLower` on text that is valid UTF-8: every
rune is mapped by `lower`, which is `unicode.ToLower`, a table of the Go library. -/
def ToLower (lower : Char → Char) (s : String) : String :=
  ⟨s.data.map lower⟩

/-- What one call of `SearchCountry` leaves behind: the two results, the cache,
and the names the upstream client was called with. -/
structure Lookup where
  country : Option Country
  err : Option GoError
  cache : InMemoryCache Dyn
  calls : List String

/-- The method `CountryService.SearchCountry`. `SearchByName` is what the client
answers to a name (the record pointer and the error); `Get` reads the clock at
`tGet` and `Set`, after the client has answered, at `tSet`; `fetch` is the part
of the body from the call of the client on, reached when `Get` finds nothing and
when the type assertion fails. The log lines are left out. -/
def SearchCountry (isSpace : Char → Bool) (lower : Char → Char)
    (SearchByName : String → Option Country × Option GoError)
    (cache : InMemoryCache Dyn) (tGet tSet : Time) (name : String) : Lookup :=
  let name := TrimSpace isSpace name
  if name = "" then
    { country := none, err := some GoError.ErrInvalidRequest, cache := cache, calls := [] }
  else
    let cacheKey := ToLower lower name
    let fetch : Lookup :=
      let answer := SearchByName name
      match answer.2 with
      | some e => { country := none, err := some e, cache := cache, calls := [name] }
      | none =>
          { country := answer.1, err := none
            cache := cache.Set tSet cacheKey (some (Dyn.countryPtr answer.1))
            calls := [name] }
    let got := cache.Get tGet cacheKey
    if got.2 then
      let asserted := Dyn.asCountryPtr got.1
      if asserted.2 then
        { country := asserted.1, err := none, cache := cache, calls := [] }
      else fetch
    else fetch

/-! ## internal/models/country.go: the response of the REST Countries API -/

/-- The struct `models.NameInfo`. -/
structure NameInfo where
  Common : String
  Official : String
  deriving DecidableEq, Repr

/-- The struct `models.Currency`. -/
structure Currency where
  Name : String
  Symbol : String
  deriving DecidableEq, Repr

/-- The struct `models.RestCountryResponse`; `Capital` is a slice and `Currencies`
a `map[string]Currency`. -/
structure RestCountryResponse where
  Name : NameInfo
  Capital : List String
  Currencies : GoMap Currency
  Population : Int

/-! ## internal/client/countries_client.go -/

/-- The method `convertToCountry` when `range resp.Currencies` visits the entries
in the order `visit`: the name and the population are copied, the capital is the
first one when there is one, and the currency is the symbol of the first entry
visited, after which the loop breaks. -/
def convertToCountryIn (visit : List (String × Currency)) (resp : RestCountryResponse) :
    Country :=
  let country : Country :=
    { Name := resp.Name.Common, Capital := "", Currency := "", Population := resp.Population }
  let country : Country :=
    match resp.Capital with
    | first :: _ => { country with Capital := first }
    | [] => country
  match visit with
  | entry :: _ => { country with Currency := entry.2.Symbol }
  | [] => country

/-- The method `convertToCountry`; `range` visits the entries in the order of the
model's list. -/
def convertToCountry (resp : RestCountryResponse) : Country :=
  convertToCountryIn resp.Currencies.entries resp

/-! ## internal/handler/country_handler.go -/

/-- The constant `http.MethodGet`. -/
def MethodGet : String := "GET"

/-- The constant `http.StatusOK`. -/
def StatusOK : Nat := 200

/-- The constant `http.StatusBadRequest`. -/
def StatusBadRequest : Nat := 400

/-- The constant `http.StatusNotFound`. -/
def StatusNotFound : Nat := 404

/-- The constant `http.StatusMethodNotAllowed`. -/
def StatusMethodNotAllowed : Nat := 405

/-- The constant `http.StatusInternalServerError`. -/
def StatusInternalServerError : Nat := 500

/-- The constant `http.StatusBadGateway`. -/
def StatusBadGateway : Nat := 502

/-- The constant `http.StatusGatewayTimeout`. -/
def StatusGatewayTimeout : Nat := 504

/-- The library function `errors.Is(err, target)` for a `target` that is one of
the sentinels: `err` or an error it wraps, at any depth, is `target`. -/
def errorsIs (err target : GoError) : Bool :=
  match err with
  | GoError.wrap msg inner =>
      if GoError.wrap msg inner = target then true else errorsIs inner target
  | leaf => decide (leaf = target)

/-- The struct `ErrorResponse`. -/
structure ErrorResponse where
  Error : String
  Message : String
  deriving DecidableEq, Repr

/-- The `data interface{}` that the handler encodes: the `*models.Country` of a
successful lookup or an `ErrorResponse`. -/
inductive Payload where
  | country (ptr : Option Country)
  | failure (resp : ErrorResponse)
  deriving DecidableEq, Repr

/-- What the handler has written to the `http.ResponseWriter`: the status of
`WriteHeader`, the `Content-Type` header and the value that was encoded. -/
structure Response where
  status : Nat
  contentType : String
  body : Payload
  deriving DecidableEq, Repr

/-- The parsed query `r.URL.Query()`, a `url.Values`, with the method of the
request. -/
structure Request where
  Method : String
  Query : GoMap (List String)

/-- The library method `url.Values.Get`: the first value under `key`, or the
empty text when there is none. -/
def Values.Get (v : GoMap (List String)) (key : String) : String :=
  match v.get key with
  | some (first :: _) => first
  | _ => ""

namespace CountryHandler

/-- The method `writeJSON`. -/
def writeJSON (status : Nat) (data : Payload) : Response :=
  { status := status, contentType := "application/json", body := data }

/-- The method `writeError`. -/
def writeError (status : Nat) (error : String) (message : String) : Response :=
  writeJSON status (Payload.failure { Error := error, Message := message })

/-- The method `handleServiceError`: the first case of the `switch` that holds. -/
def handleServiceError (err : GoError) : Response :=
  if errorsIs err GoError.ErrCountryNotFound then
    writeError StatusNotFound "Not found" "Country not found"
  else if errorsIs err GoError.ErrInvalidRequest then
    writeError StatusBadRequest "Invalid request" "Invalid request"
  else if errorsIs err GoError.ErrTimeout then
    writeError StatusGatewayTimeout "Timeout" "Request to external service timed out"
  else if errorsIs err GoError.ErrAPIFailure then
    writeError StatusBadGateway "Service unavailable" "External service is unavailable"
  else
    writeError StatusInternalServerError "Internal error" "An unexpected error occurred"

/-- What one request leaves behind: the response, the cache, the names the
upstream client was called with, and the names `SearchCountry` was called with. -/
structure Served where
  response : Response
  cache : InMemoryCache Dyn
  calls : List String
  searched : List String

/-- The method `Search`. The service `h.service` is `SearchCountry` over the
client answer `SearchByName` and the cache, with the clock readings `tGet` and
`tSet` of its `Get` and `Set`. The log lines are left out. -/
def Search (isSpace : Char → Bool) (lower : Char → Char)
    (SearchByName : String → Option Country × Option GoError)
    (cache : InMemoryCache Dyn) (tGet tSet : Time) (r : Request) : Served :=
  if r.Method ≠ MethodGet then
    { response :=
        writeError StatusMethodNotAllowed "Method not allowed" "Only GET method is supported"
      cache := cache, calls := [], searched := [] }
  else
    let name := Values.Get r.Query "name"
    if name = "" then
      { response :=
          writeError StatusBadRequest "Invalid request" "Query parameter 'name' is required"
        cache := cache, calls := [], searched := [] }
    else
      let found := SearchCountry isSpace lower SearchByName cache tGet tSet name
      match found.err with
      | some err =>
          { response := handleServiceError err
            cache := found.cache, calls := found.calls, searched := [name] }
      | none =>
          { response := writeJSON StatusOK (Payload.country found.country)
            cache := found.cache, calls := found.calls, searched := [name] }

end CountryHandler

/-! ## Facts about Go maps -/

namespace GoMap

variable {β : Type}

theorem find_none_iff (key : String) (l : List (String × β)) :
    find key l = none ↔ ∀ e ∈ l, e.1 ≠ key := by
  induction l with
  | nil => simp [find]
  | cons e rest ih =>
    by_cases hkey : e.1 = key
    · simp [find, hkey]
    · simp [find, hkey, ih]

theorem find_some_mem (key : String) (v : β) (l : List (String × β))
    (h : find key l = some v) : (key, v) ∈ l := by
  induction l with
  | nil => simp [find] at h
  | cons e rest ih =>
    by_cases hkey : e.1 = key
    · simp only [find, hkey, if_true, Option.some.injEq] at h
      have : e = (key, v) := by rw [← hkey, ← h]
      rw [this]
      exact List.mem_cons_self _ _
    · simp only [find, hkey, if_false] at h
      exact List.mem_cons_of_mem _ (ih h)

theorem find_filter (p : String × β → Bool) (key : String) (l : List (String × β))
    (hl : l.Pairwise (fun a b => a.1 ≠ b.1)) :
    find key (l.filter p) =
      match find key l with
      | none => none
      | some v => if p (key, v) then some v else none := by
  induction l with
  | nil => simp [find]
  | cons e rest ih =>
    obtain ⟨hhead, hrest⟩ := List.pairwise_cons.1 hl
    have ih := ih hrest
    by_cases hkey : e.1 = key
    · have he : e = (key, e.2) := by rw [← hkey]
      have hnone : find key rest = none :=
        (find_none_iff key rest).2 (fun a ha h => hhead a ha (hkey.trans h.symm))
      rw [hnone] at ih
      by_cases hp : p e = true
      · have hp2 : p (key, e.2) = true := he ▸ hp
        rw [List.filter_cons_of_pos hp]
        simp only [find, hkey, if_true, hp2]
      · have hp2 : ¬ p (key, e.2) = true := fun h => hp (by rw [he]; exact h)
        rw [List.filter_cons_of_neg hp, ih]
        simp [find, hkey, hp2]
    · by_cases hp : p e = true
      · rw [List.filter_cons_of_pos hp]
        simp only [find, hkey, if_false, ih]
      · rw [List.filter_cons_of_neg hp]
        simp only [find, hkey, if_false, ih]

theorem same_key_eq (l : List (String × β)) (hl : l.Pairwise (fun a b => a.1 ≠ b.1))
    (a b : String × β) (ha : a ∈ l) (hb : b ∈ l) (hab : a.1 = b.1) : a = b := by
  induction l with
  | nil => simp at ha
  | cons e rest ih =>
    obtain ⟨hhead, hrest⟩ := List.pairwise_cons.1 hl
    rcases List.mem_cons.1 ha with rfl | ha2
    · rcases List.mem_cons.1 hb with rfl | hb2
      · rfl
      · exact absurd hab (hhead b hb2)
    · rcases List.mem_cons.1 hb with rfl | hb2
      · exact absurd hab.symm (hhead a ha2)
      · exact ih hrest ha2 hb2

theorem mem_find (l : List (String × β)) (hl : l.Pairwise (fun a b => a.1 ≠ b.1))
    (key : String) (v : β) (h : (key, v) ∈ l) : find key l = some v := by
  cases hf : find key l with
  | none => exact absurd rfl ((find_none_iff key l).1 hf (key, v) h)
  | some w =>
    have := same_key_eq l hl (key, w) (key, v) (find_some_mem key w l hf) h rfl
    simp only [Prod.mk.injEq, true_and] at this
    rw [this]

theorem eq_of_entries (m n : GoMap β) (h : m.entries = n.entries) : m = n := by
  obtain ⟨l, hl⟩ := m
  obtain ⟨l2, hl2⟩ := n
  simp only at h
  subst h
  rfl

theorem set_set (m : GoMap β) (key : String) (v w : β) :
    (m.set key v).set key w = m.set key w := by
  apply eq_of_entries
  have hn : decide ((key, v).1 ≠ key) = false := decide_eq_false (fun h => h rfl)
  simp only [set, delete, List.filter_cons, hn, List.filter_filter, Bool.and_self]
  rfl

theorem get_make (key : String) : (make : GoMap β).get key = none := rfl

theorem get_delete (m : GoMap β) (k key : String) :
    (m.delete k).get key = if key = k then none else m.get key := by
  have h := find_filter (fun e => decide (e.1 ≠ k)) key m.entries m.nodup
  simp only [get, delete, h]
  cases find key m.entries with
  | none => simp
  | some v => by_cases hk : key = k <;> simp [hk]

theorem get_set_same (m : GoMap β) (key : String) (v : β) : (m.set key v).get key = some v := by
  simp only [get, set, find, if_true]

theorem get_set_ne (m : GoMap β) (k key : String) (v : β) (h : key ≠ k) :
    (m.set k v).get key = m.get key := by
  have hk : ¬ k = key := fun e => h e.symm
  have h2 := get_delete m k key
  simp only [h, if_false] at h2
  simp only [get, set, find, hk, if_false]
  exact h2

theorem delete_absent (m : GoMap β) (key : String) (h : m.get key = none) :
    (m.delete key).entries = m.entries := by
  have h2 := (find_none_iff key m.entries).1 h
  exact List.filter_eq_self.2 (fun e he => decide_eq_true (h2 e he))

theorem len_delete_present (m : GoMap β) (key : String) (v : β) (h : m.get key = some v) :
    (m.delete key).len + 1 = m.len := by
  obtain ⟨l, hl⟩ := m
  simp only [get, delete, len] at *
  induction l with
  | nil => simp [find] at h
  | cons e rest ih =>
    obtain ⟨hhead, hrest⟩ := List.pairwise_cons.1 hl
    by_cases hkey : e.1 = key
    · have hall : ∀ a ∈ rest, decide (a.1 ≠ key) = true := fun a ha =>
        decide_eq_true (fun h2 : a.1 = key => hhead a ha (hkey.trans h2.symm))
      have hn : decide (e.1 ≠ key) = false := decide_eq_false (fun h2 => h2 hkey)
      have hrest2 := List.filter_eq_self.2 hall
      simp only [List.filter_cons, hn, hrest2, List.length_cons]
      rfl
    · simp only [find, hkey, if_false] at h
      have hp : decide (e.1 ≠ key) = true := decide_eq_true hkey
      simp only [List.filter_cons, hp, if_true, List.length_cons, ih hrest h]

end GoMap

/-! ## Facts about the cache methods -/

namespace InMemoryCache

variable {α : Type}

theorem rangeDelete_entries (now : Time) (visit : List (String × cacheItem α))
    (m : GoMap (cacheItem α)) :
    (rangeDelete now visit m).entries =
      m.entries.filter (fun e =>
        visit.all (fun v => !(Time.After now v.2.expiration && decide (v.1 = e.1)))) := by
  induction visit generalizing m with
  | nil => simp [rangeDelete]
  | cons v rest ih =>
    rw [rangeDelete, ih]
    by_cases hv : Time.After now v.2.expiration = true
    · simp only [hv, if_true, GoMap.delete, List.filter_filter]
      apply List.filter_congr
      intro e _
      by_cases hk : e.1 = v.1
      · simp [hk, hv]
      · have hk2 : ¬ v.1 = e.1 := fun h => hk h.symm
        simp [hk, hk2]
    · simp only [Bool.not_eq_true] at hv
      simp [hv]

theorem removeExpiredIn_entries (visit : List (String × cacheItem α)) (c : InMemoryCache α)
    (now : Time) (hvisit : ∀ e, e ∈ visit ↔ e ∈ c.items.entries) :
    (removeExpiredIn visit c now).items.entries =
      c.items.entries.filter (fun e => !Time.After now e.2.expiration) := by
  simp only [removeExpiredIn, rangeDelete_entries]
  apply List.filter_congr
  intro e he
  rw [Bool.eq_iff_iff]
  simp only [List.all_eq_true, Bool.not_eq_true', Bool.and_eq_false_imp, decide_eq_false_iff_not]
  constructor
  · intro h
    by_contra hexp
    simp only [Bool.not_eq_false] at hexp
    exact h e ((hvisit e).2 he) hexp rfl
  · intro hexp v hv hvexp hkey
    have : v = e := GoMap.same_key_eq _ c.items.nodup v e ((hvisit v).1 hv) he hkey
    rw [this] at hvexp
    rw [hvexp] at hexp
    exact absurd hexp (by simp)

theorem get_removeExpiredIn (visit : List (String × cacheItem α)) (c : InMemoryCache α)
    (now : Time) (hvisit : ∀ e, e ∈ visit ↔ e ∈ c.items.entries) (key : String) :
    (removeExpiredIn visit c now).items.get key =
      match c.items.get key with
      | none => none
      | some item => if Time.After now item.expiration then none else some item := by
  have h := GoMap.find_filter (fun e => !Time.After now e.2.expiration) key
    c.items.entries c.items.nodup
  simp only [GoMap.get, removeExpiredIn_entries visit c now hvisit, h]
  cases GoMap.find key c.items.entries with
  | none => rfl
  | some item => cases hexp : Time.After now item.expiration <;> simp [hexp]

theorem get_removeExpired (c : InMemoryCache α) (now : Time) (key : String) :
    (c.removeExpired now).items.get key =
      match c.items.get key with
      | none => none
      | some item => if Time.After now item.expiration then none else some item :=
  get_removeExpiredIn c.items.entries c now (fun _ => Iff.rfl) key

theorem removeExpired_entries (c : InMemoryCache α) (now : Time) :
    (c.removeExpired now).items.entries =
      c.items.entries.filter (fun e => !Time.After now e.2.expiration) :=
  removeExpiredIn_entries c.items.entries c now (fun _ => Iff.rfl)

theorem Get_of_get_some (c : InMemoryCache α) (t : Time) (key : String) (item : cacheItem α)
    (h : c.items.get key = some item) (ht : t ≤ item.expiration) :
    c.Get t key = (item.value, true) := by
  have hnot : Time.After t item.expiration = false :=
    decide_eq_false (not_lt.2 ht)
  simp [Get, h, hnot]

theorem get_Set_same (c : InMemoryCache α) (now : Time) (key : String) (value : Option α) :
    (c.Set now key value).items.get key = some { value := value, expiration := now + c.ttl } :=
  GoMap.get_set_same _ _ _

theorem get_Set_ne (c : InMemoryCache α) (now : Time) (k key : String) (value : Option α)
    (h : key ≠ k) : (c.Set now k value).items.get key = c.items.get key :=
  GoMap.get_set_ne _ _ _ _ h

end InMemoryCache

/-- A step that is not a `Set` on `key` and not a sweep later than `t` keeps an
item of `key` that expires at `t` or later, and every step keeps `ttl`. -/
theorem step_keeps_item (p q : Process α) (op : Op α) (out : Out α) (key : String)
    (item : cacheItem α) (t : Time)
    (hstep : step p op = Except.ok (q, out))
    (hset : ∀ now w, op ≠ Op.set now key w)
    (hsweep : ∀ now, op = Op.tick now → now ≤ t)
    (hitem : p.cache.items.get key = some item) (ht : t ≤ item.expiration) :
    q.cache.items.get key = some item ∧ q.cache.ttl = p.cache.ttl := by
  cases op with
  | get now k =>
    simp only [step, Except.ok.injEq, Prod.mk.injEq] at hstep
    rw [← hstep.1]; exact ⟨hitem, rfl⟩
  | set now k w =>
    simp only [step, Except.ok.injEq, Prod.mk.injEq] at hstep
    rw [← hstep.1]
    have hk : key ≠ k := fun e => hset now w (by rw [e])
    exact ⟨(InMemoryCache.get_Set_ne _ _ _ _ _ hk).trans hitem, rfl⟩
  | size =>
    simp only [step, Except.ok.injEq, Prod.mk.injEq] at hstep
    rw [← hstep.1]; exact ⟨hitem, rfl⟩
  | tick now =>
    have hnow : now ≤ t := hsweep now rfl
    have hnot : Time.After now item.expiration = false :=
      decide_eq_false (not_lt.2 (le_trans hnow ht))
    by_cases ha : p.cleanupAlive = true
    · simp only [step, ha, if_true, Except.ok.injEq, Prod.mk.injEq] at hstep
      rw [← hstep.1]
      refine ⟨?_, rfl⟩
      simp [InMemoryCache.get_removeExpired, hitem, hnot]
    · simp only [step, ha, Except.ok.injEq, Prod.mk.injEq] at hstep
      simp only [Bool.false_eq_true, if_false, Except.ok.injEq, Prod.mk.injEq] at hstep
      rw [← hstep.1]; exact ⟨hitem, rfl⟩
  | stopSeen =>
    cases hc : p.cache.stopChan <;>
      simp only [step, hc, Except.ok.injEq, Prod.mk.injEq] at hstep <;>
      (rw [← hstep.1]; exact ⟨hitem, rfl⟩)
  | stop =>
    cases hc : p.cache.stopChan <;>
      simp only [step, InMemoryCache.Stop, hc, Except.ok.injEq, Prod.mk.injEq, reduceCtorEq]
        at hstep
    rw [← hstep.1]; exact ⟨hitem, rfl⟩

/-- The same over a whole run. -/
theorem run_keeps_item (ops : List (Op α)) (p q : Process α) (key : String)
    (item : cacheItem α) (t : Time)
    (hrun : run p ops = Except.ok q)
    (hset : ∀ now w, Op.set now key w ∉ ops)
    (hsweep : ∀ now, Op.tick now ∈ ops → now ≤ t)
    (hitem : p.cache.items.get key = some item) (ht : t ≤ item.expiration) :
    q.cache.items.get key = some item ∧ q.cache.ttl = p.cache.ttl := by
  induction ops generalizing p with
  | nil =>
    simp only [run, Except.ok.injEq] at hrun
    rw [← hrun]; exact ⟨hitem, rfl⟩
  | cons op rest ih =>
    cases hs : step p op with
    | error e => simp [run, hs] at hrun
    | ok r =>
      obtain ⟨p1, out⟩ := r
      simp only [run, hs] at hrun
      have h1 := step_keeps_item p p1 op out key item t hs
        (fun now w e => hset now w (e ▸ List.mem_cons_self _ _))
        (fun now e => hsweep now (e ▸ List.mem_cons_self _ _)) hitem ht
      have h2 := ih p1 hrun (fun now w hm => hset now w (List.mem_cons_of_mem _ hm))
        (fun now hm => hsweep now (List.mem_cons_of_mem _ hm)) h1.1
      exact ⟨h2.1, h2.2.trans h1.2⟩

/-- A step keeps `ttl`, and an item held after a step that is not a `Set` on its
key was held, the same, before the step. -/
theorem step_inherits (p q : Process α) (op : Op α) (out : Out α)
    (hstep : step p op = Except.ok (q, out)) :
    q.cache.ttl = p.cache.ttl ∧
    ∀ key item, (∀ now w, op ≠ Op.set now key w) →
      q.cache.items.get key = some item → p.cache.items.get key = some item := by
  cases op with
  | get now k =>
    simp only [step, Except.ok.injEq, Prod.mk.injEq] at hstep
    rw [← hstep.1]; exact ⟨rfl, fun _ _ _ h => h⟩
  | set now k w =>
    simp only [step, Except.ok.injEq, Prod.mk.injEq] at hstep
    rw [← hstep.1]
    refine ⟨rfl, fun key item hne h => ?_⟩
    have hk : key ≠ k := fun e => hne now w (by rw [e])
    rw [← InMemoryCache.get_Set_ne p.cache now k key w hk]
    exact h
  | size =>
    simp only [step, Except.ok.injEq, Prod.mk.injEq] at hstep
    rw [← hstep.1]; exact ⟨rfl, fun _ _ _ h => h⟩
  | tick now =>
    by_cases ha : p.cleanupAlive = true
    · simp only [step, ha, if_true, Except.ok.injEq, Prod.mk.injEq] at hstep
      rw [← hstep.1]
      refine ⟨rfl, fun key item _ h => ?_⟩
      simp only [InMemoryCache.get_removeExpired] at h
      cases hg : p.cache.items.get key with
      | none => simp [hg] at h
      | some old =>
        simp only [hg] at h
        by_cases hexp : Time.After now old.expiration = true
        · simp [hexp] at h
        · simp only [hexp] at h
          simpa using h
    · simp only [step, ha, Except.ok.injEq, Prod.mk.injEq] at hstep
      simp only [Bool.false_eq_true, if_false, Except.ok.injEq, Prod.mk.injEq] at hstep
      rw [← hstep.1]; exact ⟨rfl, fun _ _ _ h => h⟩
  | stopSeen =>
    cases hc : p.cache.stopChan <;>
      simp only [step, hc, Except.ok.injEq, Prod.mk.injEq] at hstep <;>
      (rw [← hstep.1]; exact ⟨rfl, fun _ _ _ h => h⟩)
  | stop =>
    cases hc : p.cache.stopChan <;>
      simp only [step, InMemoryCache.Stop, hc, Except.ok.injEq, Prod.mk.injEq, reduceCtorEq]
        at hstep
    rw [← hstep.1]; exact ⟨rfl, fun _ _ _ h => h⟩

/-- After a run, an item of a key that the run has set carries the time of the
last such `Set` plus `ttl`; an item of a key that the run has not set is the item
the key had before the run. -/
theorem run_stamp (ops : List (Op α)) (p q : Process α) (hrun : run p ops = Except.ok q) :
    q.cache.ttl = p.cache.ttl ∧
    ∀ key item, q.cache.items.get key = some item →
      match lastSet key ops with
      | some s => item.expiration = s + p.cache.ttl
      | none => p.cache.items.get key = some item := by
  induction ops generalizing p with
  | nil =>
    simp only [run, Except.ok.injEq] at hrun
    rw [← hrun]; exact ⟨rfl, fun _ _ h => h⟩
  | cons op rest ih =>
    cases hs : step p op with
    | error e => simp [run, hs] at hrun
    | ok r =>
      obtain ⟨p1, out⟩ := r
      simp only [run, hs] at hrun
      obtain ⟨httl1, hinh⟩ := step_inherits p p1 op out hs
      obtain ⟨httl2, hrest⟩ := ih p1 hrun
      refine ⟨httl2.trans httl1, fun key item hq => ?_⟩
      have h2 := hrest key item hq
      cases hl : lastSet key rest with
      | some s =>
        simp only [hl] at h2
        simp only [lastSet, hl]
        rw [← httl1]; exact h2
      | none =>
        simp only [hl] at h2
        simp only [lastSet, hl]
        cases op with
        | set now k w =>
          by_cases hk : k = key
          · simp only [hk, if_true]
            simp only [step, Except.ok.injEq, Prod.mk.injEq] at hs
            rw [← hs.1, hk] at h2
            have h3 := InMemoryCache.get_Set_same p.cache now key w
            rw [h3] at h2
            simp only [Option.some.injEq] at h2
            rw [← h2]
          · simp only [hk, if_false]
            exact hinh key item (fun now2 w2 e => by
              simp only [Op.set.injEq] at e
              exact hk e.2.1) h2
        | get now k => exact hinh key item (fun _ _ e => by simp at e) h2
        | size => exact hinh key item (fun _ _ e => by simp at e) h2
        | tick now => exact hinh key item (fun _ _ e => by simp at e) h2
        | stopSeen => exact hinh key item (fun _ _ e => by simp at e) h2
        | stop => exact hinh key item (fun _ _ e => by simp at e) h2

theorem NewInMemoryCache_ok (ttl : Duration) (p : Process α)
    (h : NewInMemoryCache α ttl = Except.ok p) :
    p = { cache := { items := GoMap.make, ttl := ttl, stopChan := Chan.isOpen }
          ticker := Int.tdiv ttl 2, cleanupAlive := true } := by
  unfold NewInMemoryCache NewTicker at h
  by_cases hd : Int.tdiv ttl 2 ≤ 0
  · simp [hd] at h
  · simp only [hd, if_false, Except.ok.injEq] at h
    exact h.symm

theorem NewTicker_ok_iff (ttl : Int) :
    (∃ d, NewTicker (Int.tdiv ttl 2) = Except.ok d) ↔ 2 ≤ ttl := by
  have hdiv : Int.tdiv ttl 2 ≤ 0 ↔ ttl < 2 := by
    rcases lt_or_le ttl 0 with h0 | h0
    · have h1 : Int.tdiv ttl 2 = -(Int.tdiv (-ttl) 2) := by rw [Int.neg_tdiv, neg_neg]
      have h2 : 0 ≤ Int.tdiv (-ttl) 2 := Int.tdiv_nonneg (by omega) (by decide)
      constructor
      · intro _; omega
      · intro _; omega
    · rw [Int.tdiv_eq_ediv h0 (by decide)]
      constructor
      · intro h; omega
      · intro h; omega
  unfold NewTicker
  by_cases hd : Int.tdiv ttl 2 ≤ 0
  · have := hdiv.1 hd
    simp only [hd, if_true, reduceCtorEq, exists_false, false_iff, not_le]
    exact this
  · have : ¬ ttl < 2 := fun h => hd (hdiv.2 h)
    simp only [hd, if_false, Except.ok.injEq, exists_eq', true_iff]
    exact not_lt.1 this

/-- A step panics exactly when it is a `Stop` on a closed channel; a step that
does not panic closes the channel exactly when it is a `Stop`. -/
theorem step_error_iff (p : Process α) (op : Op α) :
    (∃ e, step p op = Except.error e) ↔ (op = Op.stop ∧ p.cache.stopChan = Chan.closed) := by
  cases op with
  | get now k => simp [step]
  | set now k w => simp [step]
  | size => simp [step]
  | tick now => by_cases ha : p.cleanupAlive = true <;> simp [step, ha]
  | stopSeen => cases hc : p.cache.stopChan <;> simp [step, hc]
  | stop => cases hc : p.cache.stopChan <;> simp [step, InMemoryCache.Stop, hc]

theorem step_stopChan (p q : Process α) (op : Op α) (out : Out α)
    (hstep : step p op = Except.ok (q, out)) :
    q.cache.stopChan = (if op.isStop then Chan.closed else p.cache.stopChan) := by
  cases op with
  | get now k =>
    simp only [step, Except.ok.injEq, Prod.mk.injEq] at hstep
    rw [← hstep.1]; rfl
  | set now k w =>
    simp only [step, Except.ok.injEq, Prod.mk.injEq] at hstep
    rw [← hstep.1]; rfl
  | size =>
    simp only [step, Except.ok.injEq, Prod.mk.injEq] at hstep
    rw [← hstep.1]; rfl
  | tick now =>
    by_cases ha : p.cleanupAlive = true
    · simp only [step, ha, if_true, Except.ok.injEq, Prod.mk.injEq] at hstep
      rw [← hstep.1]; rfl
    · simp only [step, ha, Except.ok.injEq, Prod.mk.injEq] at hstep
      simp only [Bool.false_eq_true, if_false, Except.ok.injEq, Prod.mk.injEq] at hstep
      rw [← hstep.1]; rfl
  | stopSeen =>
    cases hc : p.cache.stopChan <;>
      simp only [step, hc, Except.ok.injEq, Prod.mk.injEq] at hstep <;>
      (rw [← hstep.1]; simp [Op.isStop, hc])
  | stop =>
    cases hc : p.cache.stopChan <;>
      simp only [step, InMemoryCache.Stop, hc, Except.ok.injEq, Prod.mk.injEq, reduceCtorEq]
        at hstep
    rw [← hstep.1]; rfl

/-- After a run the channel is closed exactly when it was closed before the run
or the run contains a `Stop`. -/
theorem run_stopChan (ops : List (Op α)) (p q : Process α) (hrun : run p ops = Except.ok q) :
    q.cache.stopChan = Chan.closed ↔ (p.cache.stopChan = Chan.closed ∨ Op.stop ∈ ops) := by
  induction ops generalizing p with
  | nil =>
    simp only [run, Except.ok.injEq] at hrun
    rw [← hrun]; simp
  | cons op rest ih =>
    cases hs : step p op with
    | error e => simp [run, hs] at hrun
    | ok r =>
      obtain ⟨p1, out⟩ := r
      simp only [run, hs] at hrun
      rw [ih p1 hrun, step_stopChan p p1 op out hs]
      cases op <;> simp [Op.isStop]

/-- A run goes through without a panic exactly when it holds at most one `Stop`,
and none when the channel is closed at its start. -/
theorem run_ok_iff (ops : List (Op α)) (p : Process α) :
    (∃ q, run p ops = Except.ok q) ↔
      (ops.filter Op.isStop).length ≤ (if p.cache.stopChan = Chan.closed then 0 else 1) := by
  induction ops generalizing p with
  | nil => simp [run]
  | cons op rest ih =>
    cases hs : step p op with
    | error e =>
      obtain ⟨hop, hc⟩ := (step_error_iff p op).1 ⟨e, hs⟩
      subst hop
      simp [run, hs, hc, Op.isStop]
    | ok r =>
      obtain ⟨p1, out⟩ := r
      have hch := step_stopChan p p1 op out hs
      simp only [run, hs, ih p1, hch]
      by_cases hstop : op.isStop = true
      · have hopen : p.cache.stopChan ≠ Chan.closed := by
          intro hc
          have hop : op = Op.stop := by cases op <;> simp_all [Op.isStop]
          have := (step_error_iff p op).2 ⟨hop, hc⟩
          rw [hs] at this
          simp at this
        simp [hstop, hopen, List.filter_cons]
      · simp only [Bool.not_eq_true] at hstop
        simp [hstop, List.filter_cons]

/-- Lower-casing maps only the empty text to the empty text. -/
theorem ToLower_eq_empty (lower : Char → Char) (s : String) :
    ToLower lower s = "" ↔ s = "" := by
  obtain ⟨l⟩ := s
  cases l with
  | nil => simp [ToLower]
  | cons a rest =>
    constructor
    · intro h
      have := congrArg String.data h
      simp [ToLower] at this
    · intro h
      have := congrArg String.data h
      simp at this

/-! ## Facts about the service -/

/-- A read that finds a key finds it, with the same value, at every earlier time. -/
theorem InMemoryCache.Get_earlier (c : InMemoryCache α) (t t2 : Time) (key : String)
    (ht : t ≤ t2) (hfound : (c.Get t2 key).2 = true) : c.Get t key = c.Get t2 key := by
  unfold InMemoryCache.Get at hfound ⊢
  cases hg : c.items.get key with
  | none => rfl
  | some item =>
    simp only [hg] at hfound ⊢
    by_cases h2 : Time.After t2 item.expiration = true
    · simp [h2] at hfound
    · have h2f : ¬ item.expiration < t2 := fun h => h2 (decide_eq_true h)
      have h1 : Time.After t item.expiration = false :=
        decide_eq_false (fun h => h2f (lt_of_lt_of_le h ht))
      simp only [Bool.not_eq_true] at h2
      simp [h1, h2]

/-- The client is called with the trimmed name, and no more than once. -/
theorem SearchCountry_calls (isSpace : Char → Bool) (lower : Char → Char)
    (client : String → Option Country × Option GoError) (cache : InMemoryCache Dyn)
    (tGet tSet : Time) (name : String) :
    (SearchCountry isSpace lower client cache tGet tSet name).calls = [] ∨
    (SearchCountry isSpace lower client cache tGet tSet name).calls =
      [TrimSpace isSpace name] := by
  unfold SearchCountry
  simp only
  split
  · exact Or.inl rfl
  · split
    · split
      · exact Or.inl rfl
      · split <;> exact Or.inr rfl
    · split <;> exact Or.inr rfl

/-- The cache is another one after `SearchCountry` only when it returns no error. -/
theorem SearchCountry_err_cache (isSpace : Char → Bool) (lower : Char → Char)
    (client : String → Option Country × Option GoError) (cache : InMemoryCache Dyn)
    (tGet tSet : Time) (name : String)
    (h : (SearchCountry isSpace lower client cache tGet tSet name).err ≠ none) :
    (SearchCountry isSpace lower client cache tGet tSet name).cache = cache := by
  by_cases hn : TrimSpace isSpace name = ""
  · simp [SearchCountry, hn]
  · cases ha : (client (TrimSpace isSpace name)).2 with
    | some e =>
      by_cases h1 : (cache.Get tGet (ToLower lower (TrimSpace isSpace name))).2 = true
      · by_cases h2 : (Dyn.asCountryPtr
            (cache.Get tGet (ToLower lower (TrimSpace isSpace name))).1).2 = true
        · simp [SearchCountry, hn, h1, h2]
        · simp [SearchCountry, hn, h1, h2, ha]
      · simp [SearchCountry, hn, h1, ha]
    | none =>
      by_cases h1 : (cache.Get tGet (ToLower lower (TrimSpace isSpace name))).2 = true
      · by_cases h2 : (Dyn.asCountryPtr
            (cache.Get tGet (ToLower lower (TrimSpace isSpace name))).1).2 = true
        · simp [SearchCountry, hn, h1, h2]
        · simp [SearchCountry, hn, h1, h2, ha] at h
      · simp [SearchCountry, hn, h1, ha] at h

/-! ## Facts about the handler -/

/-- For a sentinel as target, `errors.Is` looks through a wrapper. -/
theorem errorsIs_wrap (msg : String) (inner : GoError) :
    errorsIs (GoError.wrap msg inner) GoError.ErrCountryNotFound =
      errorsIs inner GoError.ErrCountryNotFound ∧
    errorsIs (GoError.wrap msg inner) GoError.ErrInvalidRequest =
      errorsIs inner GoError.ErrInvalidRequest ∧
    errorsIs (GoError.wrap msg inner) GoError.ErrTimeout =
      errorsIs inner GoError.ErrTimeout ∧
    errorsIs (GoError.wrap msg inner) GoError.ErrAPIFailure =
      errorsIs inner GoError.ErrAPIFailure := by
  refine ⟨?_, ?_, ?_, ?_⟩ <;> simp [errorsIs]

/-- An error is at most one of the four sentinels. -/
theorem errorsIs_cases (e : GoError) :
    (errorsIs e GoError.ErrCountryNotFound = true ∧ errorsIs e GoError.ErrInvalidRequest = false ∧
      errorsIs e GoError.ErrTimeout = false ∧ errorsIs e GoError.ErrAPIFailure = false) ∨
    (errorsIs e GoError.ErrCountryNotFound = false ∧ errorsIs e GoError.ErrInvalidRequest = true ∧
      errorsIs e GoError.ErrTimeout = false ∧ errorsIs e GoError.ErrAPIFailure = false) ∨
    (errorsIs e GoError.ErrCountryNotFound = false ∧ errorsIs e GoError.ErrInvalidRequest = false ∧
      errorsIs e GoError.ErrTimeout = true ∧ errorsIs e GoError.ErrAPIFailure = false) ∨
    (errorsIs e GoError.ErrCountryNotFound = false ∧ errorsIs e GoError.ErrInvalidRequest = false ∧
      errorsIs e GoError.ErrTimeout = false ∧ errorsIs e GoError.ErrAPIFailure = true) ∨
    (errorsIs e GoError.ErrCountryNotFound = false ∧ errorsIs e GoError.ErrInvalidRequest = false ∧
      errorsIs e GoError.ErrTimeout = false ∧ errorsIs e GoError.ErrAPIFailure = false) := by
  induction e with
  | ErrCountryNotFound => simp [errorsIs]
  | ErrInvalidRequest => simp [errorsIs]
  | ErrAPIFailure => simp [errorsIs]
  | ErrTimeout => simp [errorsIs]
  | wrap msg inner ih =>
    obtain ⟨h1, h2, h3, h4⟩ := errorsIs_wrap msg inner
    rw [h1, h2, h3, h4]
    exact ih
  | other msg => simp [errorsIs]

/-- The response to a wrapped error is the response to the error inside. -/
theorem handleServiceError_wrap (msg : String) (inner : GoError) :
    CountryHandler.handleServiceError (GoError.wrap msg inner) =
      CountryHandler.handleServiceError inner := by
  obtain ⟨h1, h2, h3, h4⟩ := errorsIs_wrap msg inner
  simp only [CountryHandler.handleServiceError, h1, h2, h3, h4]

/-- Text made of white space only is trimmed to the empty text. -/
theorem TrimSpace_blank (isSpace : Char → Bool) (s : String)
    (h : ∀ ch ∈ s.data, isSpace ch = true) : TrimSpace isSpace s = "" := by
  have hdrop : s.data.dropWhile isSpace = [] := List.dropWhile_eq_nil_iff.2 h
  simp only [TrimSpace, hdrop, List.reverse_nil, List.dropWhile_nil]

/-! ## The claims -/

/-- C1. Set-then-Get: when `Set(k, v)` runs at time `s` on a cache with `ttl ≥ 0`,
and then any operations run that contain no `Set` on `k` and no sweep later
than `t`, where `s ≤ t ≤ s + ttl`, then `Get(k)` at time `t` returns `(v, true)`. -/
theorem C1_set_then_get (p q : Process α) (k : String) (v : Option α) (s t : Time)
    (ops : List (Op α))
    (_httl : 0 ≤ p.cache.ttl) (_hst : s ≤ t) (ht : t ≤ s + p.cache.ttl)
    (hset : ∀ now w, Op.set now k w ∉ ops)
    (hsweep : ∀ now, Op.tick now ∈ ops → now ≤ t)
    (hrun : run { p with cache := p.cache.Set s k v } ops = Except.ok q) :
    q.cache.Get t k = (v, true) := by
  have h := run_keeps_item ops _ q k { value := v, expiration := s + p.cache.ttl } t hrun
    hset hsweep (InMemoryCache.get_Set_same p.cache s k v) ht
  exact InMemoryCache.Get_of_get_some q.cache t k _ h.1 ht

/-- Witness of C1: a cache with `ttl = 10`, `Set("key1", "value1")` at time 0, then a
sweep at 3, a `Set` on another key at 4, `Stop`, and `Get("key1")` at time 10. -/
theorem C1_set_then_get_witness :
    (InMemoryCache.Get
      ({ items := (GoMap.make.set "key1" { value := some "value1", expiration := 10 }).set
            "key2" { value := some "value2", expiration := 14 }
         ttl := 10
         stopChan := Chan.closed } : InMemoryCache String) 10 "key1")
      = (some "value1", true) :=
  C1_set_then_get
    { cache := { items := GoMap.make, ttl := 10, stopChan := Chan.isOpen }
      ticker := 5, cleanupAlive := true }
    { cache :=
        { items := (GoMap.make.set "key1" { value := some "value1", expiration := 10 }).set
            "key2" { value := some "value2", expiration := 14 }
          ttl := 10
          stopChan := Chan.closed }
      ticker := 5, cleanupAlive := true }
    "key1" (some "value1") 0 10
    [Op.tick 3, Op.set 4 "key2" (some "value2"), Op.stop]
    (by decide) (by decide) (by decide)
    (by simp) (by simp) (by rfl)

/-- C2. Absent or expired reads miss: when the map holds no entry for `k`, or
holds one whose expiration is strictly before `t`, `Get(k)` at time `t` returns
`(nil, false)`, and it does so as well after a sweep at any time `u` (which may
or may not have removed the entry). With `ttl = 50ms`, a `Set` at `s` followed
by a `Get` at `s + 100ms` misses. -/
theorem C2_absent_or_expired_miss (c : InMemoryCache α) (k : String) (t : Time)
    (h : c.items.get k = none ∨
      ∃ item, c.items.get k = some item ∧ item.expiration < t) :
    c.Get t k = (none, false) ∧
    (∀ u, (c.removeExpired u).Get t k = (none, false)) ∧
    (∀ (d : InMemoryCache α) (s : Time) (v : Option α), d.ttl = 50000000 →
      (d.Set s k v).Get (s + 100000000) k = (none, false) ∧
      ((d.Set s k v).removeExpired (s + 75000000)).Get (s + 100000000) k = (none, false)) := by
  refine ⟨?_, ?_, ?_⟩
  · rcases h with h | ⟨item, h, hexp⟩
    · simp [InMemoryCache.Get, h]
    · simp [InMemoryCache.Get, h, Time.After, hexp]
  · intro u
    rcases h with h | ⟨item, h, hexp⟩
    · simp [InMemoryCache.Get, InMemoryCache.get_removeExpired, h]
    · by_cases hu : Time.After u item.expiration = true
      · simp [InMemoryCache.Get, InMemoryCache.get_removeExpired, h, hu]
      · simp only [Bool.not_eq_true] at hu
        simp only [InMemoryCache.Get, InMemoryCache.get_removeExpired, h, hu]
        simp [Time.After, hexp]
  · intro d s v httl
    have hg := InMemoryCache.get_Set_same d s k v
    have h1 : Time.After (s + 100000000) (s + d.ttl) = true := by
      rw [httl]; exact decide_eq_true (Int.add_lt_add_left (by decide) s)
    have h2 : Time.After (s + 75000000) (s + d.ttl) = true := by
      rw [httl]; exact decide_eq_true (Int.add_lt_add_left (by decide) s)
    constructor
    · simp [InMemoryCache.Get, hg, h1]
    · simp [InMemoryCache.Get, InMemoryCache.get_removeExpired, hg, h2]

/-- Witness of C2: an entry that expires at 10 is read at 11. -/
theorem C2_absent_or_expired_miss_witness :
    InMemoryCache.Get
      ({ items := GoMap.make.set "key1" { value := some "value1", expiration := 10 }
         ttl := 10
         stopChan := Chan.isOpen } : InMemoryCache String) 11 "key1" = (none, false) :=
  (C2_absent_or_expired_miss
    ({ items := GoMap.make.set "key1" { value := some "value1", expiration := 10 }
       ttl := 10
       stopChan := Chan.isOpen } : InMemoryCache String) "key1" 11
    (Or.inr ⟨{ value := some "value1", expiration := 10 }, rfl, by decide⟩)).1

/-- C3. Last write wins: after `Set(k, v1)` at `s1` and `Set(k, v2)` at `s2`, a
`Get(k)` at a time `t` not after `s2 + ttl` returns `(v2, true)`; the entry of `k`
is the second one, expiring at `s2 + ttl`; and the cache is in the state that
`Set(k, v2)` at `s2` alone leads to. -/
theorem C3_last_write_wins (c : InMemoryCache α) (k : String) (v1 v2 : Option α)
    (s1 s2 t : Time) (ht : t ≤ s2 + c.ttl) :
    ((c.Set s1 k v1).Set s2 k v2).Get t k = (v2, true) ∧
    ((c.Set s1 k v1).Set s2 k v2).items.get k =
      some { value := v2, expiration := s2 + c.ttl } ∧
    (c.Set s1 k v1).Set s2 k v2 = c.Set s2 k v2 := by
  have hstate : (c.Set s1 k v1).Set s2 k v2 = c.Set s2 k v2 := by
    simp only [InMemoryCache.Set, GoMap.set_set]
  refine ⟨?_, ?_, hstate⟩
  · rw [hstate]
    exact InMemoryCache.Get_of_get_some _ t k _ (InMemoryCache.get_Set_same c s2 k v2) ht
  · rw [hstate]
    exact InMemoryCache.get_Set_same c s2 k v2

/-- Witness of C3: `TestInMemoryCache_Overwrite` with `ttl = 60` and both writes
and the read at time 0. -/
theorem C3_last_write_wins_witness :
    (((({ items := GoMap.make, ttl := 60, stopChan := Chan.isOpen } :
        InMemoryCache String).Set 0 "key1" (some "value1")).Set 0 "key1"
        (some "value2")).Get 0 "key1" = (some "value2", true)) :=
  (C3_last_write_wins
    ({ items := GoMap.make, ttl := 60, stopChan := Chan.isOpen } : InMemoryCache String)
    "key1" (some "value1") (some "value2") 0 0 0 (by decide)).1

/-- C4. Expiry-stamp invariant: in every state reached from a new cache by a run
of `Get`, `Set`, `Size`, sweep and `Stop` operations, `ttl` is the value the cache
was built with, and every item held expires at the time of the last `Set` on its
key plus `ttl`; every further operation keeps `ttl`, and an item held after an
operation other than a `Set` on its key is the item held before it. -/
theorem C4_expiry_stamp_invariant (ttl : Duration) (p q : Process α) (ops : List (Op α))
    (hnew : NewInMemoryCache α ttl = Except.ok p) (hrun : run p ops = Except.ok q) :
    q.cache.ttl = ttl ∧
    (∀ key item, q.cache.items.get key = some item →
      ∃ s, lastSet key ops = some s ∧ item.expiration = s + ttl) ∧
    (∀ op r out, step q op = Except.ok (r, out) →
      r.cache.ttl = q.cache.ttl ∧
      ∀ key item, (∀ now w, op ≠ Op.set now key w) →
        r.cache.items.get key = some item → q.cache.items.get key = some item) := by
  have hp := NewInMemoryCache_ok ttl p hnew
  obtain ⟨httl, hst⟩ := run_stamp ops p q hrun
  have hpttl : p.cache.ttl = ttl := by rw [hp]
  refine ⟨httl.trans hpttl, fun key item hq => ?_,
    fun op r out hs => step_inherits q r op out hs⟩
  have h := hst key item hq
  cases hl : lastSet key ops with
  | some s =>
    simp only [hl] at h
    exact ⟨s, rfl, by rw [h, hpttl]⟩
  | none =>
    simp only [hl] at h
    rw [hp] at h
    simp [GoMap.get_make] at h

/-- Witness of C4: a cache with `ttl = 10`; `key1` is set at 0 and again at 4,
`key2` is set at 1 and swept at 12. -/
theorem C4_expiry_stamp_invariant_witness :
    ∃ q : Process String,
      run { cache := { items := GoMap.make, ttl := 10, stopChan := Chan.isOpen }
            ticker := 5, cleanupAlive := true }
        [Op.set 0 "key1" (some "a"), Op.set 1 "key2" (some "b"), Op.get 2 "key1",
          Op.set 4 "key1" (some "c"), Op.size, Op.tick 12, Op.stop] = Except.ok q ∧
      q.cache.items.get "key1" = some { value := some "c", expiration := 14 } ∧
      q.cache.items.get "key2" = none ∧
      q.cache.ttl = 10 ∧
      ∃ s, lastSet "key1"
        [Op.set 0 "key1" (some "a"), Op.set 1 "key2" (some "b"), Op.get 2 "key1",
          Op.set 4 "key1" (some "c"), Op.size, Op.tick 12, Op.stop] = some s ∧
        (14 : Int) = s + 10 :=
  ⟨_, rfl, rfl, rfl, rfl,
    (C4_expiry_stamp_invariant 10
      { cache := { items := GoMap.make, ttl := 10, stopChan := Chan.isOpen }
        ticker := 5, cleanupAlive := true } _
      [Op.set 0 "key1" (some "a"), Op.set 1 "key2" (some "b"), Op.get 2 "key1",
        Op.set 4 "key1" (some "c"), Op.size, Op.tick 12, Op.stop]
      rfl rfl).2.1 "key1" { value := some "c", expiration := 14 } rfl⟩

/-- C5, the claim as stated fails: a sweep at time 10 keeps an item that expires
at 10, so the map does hold an entry with `expiration ≤ now` after the sweep, and
`Size` counts it. -/
theorem C5_sweep_keeps_item_expiring_now :
    (InMemoryCache.removeExpired
      ({ items := GoMap.make.set "key1" { value := some "value1", expiration := 10 }
         ttl := 10
         stopChan := Chan.isOpen } : InMemoryCache String) 10).items.get "key1"
      = some { value := some "value1", expiration := 10 } ∧
    (InMemoryCache.removeExpired
      ({ items := GoMap.make.set "key1" { value := some "value1", expiration := 10 }
         ttl := 10
         stopChan := Chan.isOpen } : InMemoryCache String) 10).Size = 1 ∧
    ¬ (∀ key item,
        (InMemoryCache.removeExpired
          ({ items := GoMap.make.set "key1" { value := some "value1", expiration := 10 }
             ttl := 10
             stopChan := Chan.isOpen } : InMemoryCache String) 10).items.get key = some item →
        ¬ item.expiration ≤ 10) :=
  ⟨rfl, rfl, fun h => h "key1" { value := some "value1", expiration := 10 } rfl (le_refl _)⟩

/-- C5, amended. Sweep removal condition: after `removeExpired` runs at time `now`
the map holds no item whose expiration is strictly before `now`: it holds exactly
the items of before with `now ≤ expiration`, unchanged, and `Size` counts these. -/
theorem C5_sweep_removes_strictly_expired (c : InMemoryCache α) (now : Time) :
    (∀ key item, (c.removeExpired now).items.get key = some item → now ≤ item.expiration) ∧
    (∀ key item, (c.removeExpired now).items.get key = some item ↔
      (c.items.get key = some item ∧ now ≤ item.expiration)) ∧
    (c.removeExpired now).Size =
      (c.items.entries.filter (fun e => decide (now ≤ e.2.expiration))).length := by
  have hget : ∀ key item, (c.removeExpired now).items.get key = some item ↔
      (c.items.get key = some item ∧ now ≤ item.expiration) := by
    intro key item
    rw [InMemoryCache.get_removeExpired]
    cases hg : c.items.get key with
    | none => simp
    | some old =>
      by_cases hexp : old.expiration < now
      · simp only [Time.After, hexp, decide_True, if_true, Option.some.injEq, reduceCtorEq,
          false_iff, not_and, not_le]
        intro h; rw [← h]; exact hexp
      · simp only [Time.After, hexp, decide_False, Bool.false_eq_true, if_false,
          Option.some.injEq]
        constructor
        · intro h; exact ⟨h, by rw [← h]; exact not_lt.1 hexp⟩
        · intro h; exact h.1
  refine ⟨fun key item h => ((hget key item).1 h).2, hget, ?_⟩
  simp only [InMemoryCache.Size, GoMap.len, InMemoryCache.removeExpired_entries]
  congr 1
  apply List.filter_congr
  intro e _
  by_cases h : now ≤ e.2.expiration
  · simp [Time.After, h, not_lt.2 h]
  · simp [Time.After, h, not_le.1 h]

/-- Witness of C5: entries expiring at 10 and at 12 are swept at 11. -/
theorem C5_sweep_removes_strictly_expired_witness :
    (InMemoryCache.removeExpired
      ({ items := (GoMap.make.set "key1" { value := some "value1", expiration := 10 }).set
            "key2" { value := some "value2", expiration := 12 }
         ttl := 10
         stopChan := Chan.isOpen } : InMemoryCache String) 11).items.get "key2"
      = some { value := some "value2", expiration := 12 } ∧ (11 : Int) ≤ 12 :=
  ⟨rfl, (C5_sweep_removes_strictly_expired
    ({ items := (GoMap.make.set "key1" { value := some "value1", expiration := 10 }).set
          "key2" { value := some "value2", expiration := 12 }
       ttl := 10
       stopChan := Chan.isOpen } : InMemoryCache String) 11).1 "key2"
    { value := some "value2", expiration := 12 } rfl⟩

/-- C6. The sweep is invisible to readers: for a sweep at `s` and a read at
`t ≥ s`, `Get(k)` returns the same pair after the sweep as before it; and when
`Get` finds a key at time `s`, the sweep at `s` keeps the key's item as it is. -/
theorem C6_sweep_invisible_to_readers (c : InMemoryCache α) (s t : Time) (k : String)
    (hst : s ≤ t) :
    (c.removeExpired s).Get t k = c.Get t k ∧
    (∀ key, (c.Get s key).2 = true →
      (c.removeExpired s).items.get key = c.items.get key) := by
  constructor
  · simp only [InMemoryCache.Get, InMemoryCache.get_removeExpired]
    cases hg : c.items.get k with
    | none => rfl
    | some item =>
      by_cases hexp : item.expiration < s
      · have ht : item.expiration < t := lt_of_lt_of_le hexp hst
        simp [Time.After, hexp, ht]
      · simp [Time.After, hexp]
  · intro key hfound
    rw [InMemoryCache.get_removeExpired]
    cases hg : c.items.get key with
    | none => rfl
    | some item =>
      by_cases hexp : Time.After s item.expiration = true
      · simp [InMemoryCache.Get, hg, hexp] at hfound
      · simp [hexp]

/-- Witness of C6: an item expiring at 10, a sweep at 11 and a read at 12. -/
theorem C6_sweep_invisible_to_readers_witness :
    (InMemoryCache.removeExpired
      ({ items := GoMap.make.set "key1" { value := some "value1", expiration := 10 }
         ttl := 10
         stopChan := Chan.isOpen } : InMemoryCache String) 11).Get 12 "key1" =
    InMemoryCache.Get
      ({ items := GoMap.make.set "key1" { value := some "value1", expiration := 10 }
         ttl := 10
         stopChan := Chan.isOpen } : InMemoryCache String) 12 "key1" :=
  (C6_sweep_invisible_to_readers
    ({ items := GoMap.make.set "key1" { value := some "value1", expiration := 10 }
       ttl := 10
       stopChan := Chan.isOpen } : InMemoryCache String) 11 12 "key1" (by decide)).1

/-- C7. Size counts held entries, expired or not: a new cache has `Size` 0;
`Set(k, _)` adds one to `Size` when the map has no entry for `k` and keeps `Size`
when it has one, whatever its expiration; `Get` leaves the state, hence `Size`,
as it is; and after `Set(k, v)` at `s`, a `Get(k)` at a time after `s + ttl`
misses while the entry of `k` is still held and counted. -/
theorem C7_size_counts_held_entries (p : Process α) (k : String) (v : Option α)
    (s t : Time) :
    (∀ ttl (p0 : Process α), NewInMemoryCache α ttl = Except.ok p0 → p0.cache.Size = 0) ∧
    (p.cache.items.get k = none → (p.cache.Set s k v).Size = p.cache.Size + 1) ∧
    (∀ item, p.cache.items.get k = some item → (p.cache.Set s k v).Size = p.cache.Size) ∧
    (∃ r, step p (Op.get t k) = Except.ok (p, r)) ∧
    (s + p.cache.ttl < t →
      step { p with cache := p.cache.Set s k v } (Op.get t k) =
        Except.ok ({ p with cache := p.cache.Set s k v }, Out.got none false) ∧
      (p.cache.Set s k v).items.get k = some { value := v, expiration := s + p.cache.ttl } ∧
      (p.cache.Set s k v).Size =
        (match p.cache.items.get k with
          | none => p.cache.Size + 1
          | some _ => p.cache.Size)) := by
  have habsent : p.cache.items.get k = none → (p.cache.Set s k v).Size = p.cache.Size + 1 := by
    intro h
    simp only [InMemoryCache.Size, InMemoryCache.Set, GoMap.len, GoMap.set, List.length_cons,
      GoMap.delete_absent _ _ h]
  have hpresent : ∀ item, p.cache.items.get k = some item →
      (p.cache.Set s k v).Size = p.cache.Size := by
    intro item h
    have := GoMap.len_delete_present _ _ _ h
    simp only [InMemoryCache.Size, InMemoryCache.Set, GoMap.len, GoMap.set, List.length_cons]
    exact this
  refine ⟨?_, habsent, hpresent, ⟨_, rfl⟩, ?_⟩
  · intro ttl p0 h
    rw [NewInMemoryCache_ok ttl p0 h]
    rfl
  · intro ht
    have hg := InMemoryCache.get_Set_same p.cache s k v
    have hafter : Time.After t (s + p.cache.ttl) = true := decide_eq_true ht
    refine ⟨?_, hg, ?_⟩
    · simp [step, InMemoryCache.Get, hg, hafter]
    · cases h : p.cache.items.get k with
      | none => exact habsent h
      | some item => exact hpresent item h

/-- Witness of C7: `ttl = 10`, `key1` held and expired; `Set` at 20 keeps `Size`. -/
theorem C7_size_counts_held_entries_witness :
    (InMemoryCache.Set
      ({ items := GoMap.make.set "key1" { value := some "value1", expiration := 10 }
         ttl := 10
         stopChan := Chan.isOpen } : InMemoryCache String) 20 "key1" (some "value2")).Size
      = 1 :=
  (C7_size_counts_held_entries
    ({ cache := { items := GoMap.make.set "key1" { value := some "value1", expiration := 10 }
                  ttl := 10
                  stopChan := Chan.isOpen }
       ticker := 5, cleanupAlive := true } : Process String)
    "key1" (some "value2") 20 40).2.2.1 { value := some "value1", expiration := 10 } rfl

/-- C8. Double Stop is an error: on a new cache `Stop` succeeds; in a state reached
from a new cache by a run of operations, `Stop` panics if and only if the run
holds a `Stop`, that is, the cache was stopped before. -/
theorem C8_double_stop_fails (ttl : Duration) (p q : Process α) (ops : List (Op α))
    (hnew : NewInMemoryCache α ttl = Except.ok p) (hrun : run p ops = Except.ok q) :
    (∃ c, p.cache.Stop = Except.ok c) ∧
    (∃ r, step p Op.stop = Except.ok r) ∧
    ((∃ e, q.cache.Stop = Except.error e) ↔ Op.stop ∈ ops) ∧
    ((∃ e, step q Op.stop = Except.error e) ↔ Op.stop ∈ ops) := by
  have hp := NewInMemoryCache_ok ttl p hnew
  have hopen : p.cache.stopChan = Chan.isOpen := by rw [hp]
  have hq := run_stopChan ops p q hrun
  simp only [hopen, reduceCtorEq, false_or] at hq
  have hstop : (∃ e, q.cache.Stop = Except.error e) ↔ q.cache.stopChan = Chan.closed := by
    cases hc : q.cache.stopChan <;> simp [InMemoryCache.Stop, hc]
  refine ⟨?_, ?_, hstop.trans hq, ?_⟩
  · simp [InMemoryCache.Stop, hopen]
  · simp [step, InMemoryCache.Stop, hopen]
  · rw [step_error_iff]
    simp [hq]

/-- Witness of C8: a new cache with `ttl = 10` on which `Set` and `Stop` have run;
the next `Stop` panics. -/
theorem C8_double_stop_fails_witness :
    ∃ e, InMemoryCache.Stop
      ({ items := GoMap.make.set "key1" { value := some "value1", expiration := 10 }
         ttl := 10
         stopChan := Chan.closed } : InMemoryCache String) = Except.error e :=
  (C8_double_stop_fails 10
    ({ cache := { items := GoMap.make, ttl := 10, stopChan := Chan.isOpen }
       ticker := 5, cleanupAlive := true } : Process String)
    { cache := { items := GoMap.make.set "key1" { value := some "value1", expiration := 10 }
                 ttl := 10
                 stopChan := Chan.closed }
      ticker := 5, cleanupAlive := true }
    [Op.set 0 "key1" (some "value1"), Op.stop] rfl rfl).2.2.1.2 (by simp)

/-- C9, the claim as stated fails: with a TTL of 1ns, or of 0, the ticker interval
`ttl / 2` is 0 and `time.NewTicker` panics in the goroutine that
`NewInMemoryCache` starts. -/
theorem C9_new_cache_panics_below_two :
    NewInMemoryCache String 1 = Except.error "non-positive interval for NewTicker" ∧
    NewInMemoryCache String 0 = Except.error "non-positive interval for NewTicker" ∧
    NewInMemoryCache String (-60) = Except.error "non-positive interval for NewTicker" :=
  ⟨rfl, rfl, rfl⟩

/-- C9, amended. No failure mode other than double Stop, for a TTL of at least
2ns: `NewInMemoryCache(ttl)` with its ticker of interval `ttl / 2` goes through
exactly when `2 ≤ ttl`; then a run of operations from the new cache goes through
exactly when it holds at most one `Stop`, and in every state so reached, running
or stopped, an operation panics exactly when it is a `Stop` after an earlier one. -/
theorem C9_no_failure_but_double_stop (ttl : Duration) :
    ((∃ p : Process α, NewInMemoryCache α ttl = Except.ok p) ↔ 2 ≤ ttl) ∧
    (∀ p : Process α, NewInMemoryCache α ttl = Except.ok p →
      p.ticker = Int.tdiv ttl 2 ∧ 0 < p.ticker ∧
      (∀ ops, (∃ q, run p ops = Except.ok q) ↔ (ops.filter Op.isStop).length ≤ 1) ∧
      (∀ ops q, run p ops = Except.ok q →
        ∀ op, (∃ e, step q op = Except.error e) ↔ (op = Op.stop ∧ Op.stop ∈ ops))) := by
  have hiff : (∃ p : Process α, NewInMemoryCache α ttl = Except.ok p) ↔ 2 ≤ ttl := by
    rw [← NewTicker_ok_iff ttl]
    unfold NewInMemoryCache
    cases h : NewTicker (Int.tdiv ttl 2) with
    | error e => simp
    | ok d => simp
  refine ⟨hiff, fun p hnew => ?_⟩
  have hp := NewInMemoryCache_ok ttl p hnew
  have hopen : p.cache.stopChan = Chan.isOpen := by rw [hp]
  have h2 : 2 ≤ ttl := hiff.1 ⟨p, hnew⟩
  have hpos : 0 < Int.tdiv ttl 2 := by
    have := (NewTicker_ok_iff ttl).2 h2
    unfold NewTicker at this
    by_cases hd : Int.tdiv ttl 2 ≤ 0
    · simp [hd] at this
    · exact not_le.1 hd
  refine ⟨by rw [hp], by rw [hp]; exact hpos, fun ops => ?_, fun ops q hrun op => ?_⟩
  · rw [run_ok_iff, hopen]
    simp
  · have hq := run_stopChan ops p q hrun
    simp only [hopen, reduceCtorEq, false_or] at hq
    rw [step_error_iff, hq]

/-- Witness of C9: `ttl = 10` gives a ticker of 5, and a run with one `Stop`
followed by `Get`, `Set`, `Size` and a tick goes through. -/
theorem C9_no_failure_but_double_stop_witness :
    ∃ q : Process String,
      run { cache := { items := GoMap.make, ttl := 10, stopChan := Chan.isOpen }
            ticker := 5, cleanupAlive := true }
        [Op.stop, Op.stopSeen, Op.get 1 "key1", Op.set 2 "key1" (some "value1"), Op.size,
          Op.tick 30] = Except.ok q :=
  ((C9_no_failure_but_double_stop 10).2
    ({ cache := { items := GoMap.make, ttl := 10, stopChan := Chan.isOpen }
       ticker := 5, cleanupAlive := true } : Process String) rfl).2.2.1
    [Op.stop, Op.stopSeen, Op.get 1 "key1", Op.set 2 "key1" (some "value1"), Op.size,
      Op.tick 30] |>.2 (by decide)

/-- C10. Normalised-key cache hit: for names `n1`, `n2` whose trimmed, lower-cased
forms are equal and not empty, when `SearchCountry(n1)` misses the cache and the
client answers the record `r`, then `r` is stored under `lower(trim(n1))` with the
expiration `tSet + ttl`, and a following `SearchCountry(n2)` whose read is not after
that expiration returns `r` without a call of the client: the client is called
once over the two lookups, with the trimmed `n1`. -/
theorem C10_normalised_key_cache_hit (isSpace : Char → Bool) (lower : Char → Char)
    (client1 client2 : String → Option Country × Option GoError)
    (cache : InMemoryCache Dyn) (n1 n2 : String) (r : Option Country)
    (g1 s1 g2 s2 : Time)
    (hkey : ToLower lower (TrimSpace isSpace n1) = ToLower lower (TrimSpace isSpace n2))
    (hne : ToLower lower (TrimSpace isSpace n1) ≠ "")
    (hmiss : (cache.Get g1 (ToLower lower (TrimSpace isSpace n1))).2 = false)
    (hup : client1 (TrimSpace isSpace n1) = (r, none))
    (hexp : g2 ≤ s1 + cache.ttl) :
    (SearchCountry isSpace lower client1 cache g1 s1 n1).country = r ∧
    (SearchCountry isSpace lower client1 cache g1 s1 n1).err = none ∧
    (SearchCountry isSpace lower client1 cache g1 s1 n1).calls = [TrimSpace isSpace n1] ∧
    (SearchCountry isSpace lower client1 cache g1 s1 n1).cache.items.get
        (ToLower lower (TrimSpace isSpace n1)) =
      some { value := some (Dyn.countryPtr r), expiration := s1 + cache.ttl } ∧
    (SearchCountry isSpace lower client2
        (SearchCountry isSpace lower client1 cache g1 s1 n1).cache g2 s2 n2).country = r ∧
    (SearchCountry isSpace lower client2
        (SearchCountry isSpace lower client1 cache g1 s1 n1).cache g2 s2 n2).err = none ∧
    (SearchCountry isSpace lower client2
        (SearchCountry isSpace lower client1 cache g1 s1 n1).cache g2 s2 n2).calls = [] ∧
    ((SearchCountry isSpace lower client1 cache g1 s1 n1).calls ++
      (SearchCountry isSpace lower client2
        (SearchCountry isSpace lower client1 cache g1 s1 n1).cache g2 s2 n2).calls).length
      = 1 := by
  have hne1 : TrimSpace isSpace n1 ≠ "" := fun h => hne ((ToLower_eq_empty lower _).2 h)
  have hne2 : TrimSpace isSpace n2 ≠ "" := fun h =>
    hne (hkey.trans ((ToLower_eq_empty lower _).2 h))
  have hfirst : SearchCountry isSpace lower client1 cache g1 s1 n1 =
      { country := r, err := none
        cache := cache.Set s1 (ToLower lower (TrimSpace isSpace n1)) (some (Dyn.countryPtr r))
        calls := [TrimSpace isSpace n1] } := by
    simp [SearchCountry, hne1, hmiss, hup]
  have hstored := InMemoryCache.get_Set_same cache s1 (ToLower lower (TrimSpace isSpace n1))
    (some (Dyn.countryPtr r))
  have hhit := InMemoryCache.Get_of_get_some _ g2 _ _ hstored hexp
  have hsecond : SearchCountry isSpace lower client2
      (cache.Set s1 (ToLower lower (TrimSpace isSpace n1)) (some (Dyn.countryPtr r))) g2 s2 n2 =
      { country := r, err := none
        cache := cache.Set s1 (ToLower lower (TrimSpace isSpace n1)) (some (Dyn.countryPtr r))
        calls := [] } := by
    simp [SearchCountry, hne2, ← hkey, hhit, Dyn.asCountryPtr]
  rw [hfirst]
  dsimp only
  rw [hsecond]
  exact ⟨rfl, rfl, rfl, hstored, rfl, rfl, rfl, rfl⟩

/-- Witness of C10: on an empty cache with `ttl = 300`, the lookup of `" India "`
is answered by the client, and the lookup of `"INDIA"` that follows is a hit. -/
theorem C10_normalised_key_cache_hit_witness :
    (SearchCountry (fun ch => decide (ch = ' ')) Char.toLower
      (fun _ => (none, some GoError.ErrAPIFailure))
      (SearchCountry (fun ch => decide (ch = ' ')) Char.toLower
        (fun _ => (some { Name := "India", Capital := "New Delhi", Currency := "₹",
                          Population := 1417492000 }, none))
        { items := GoMap.make, ttl := 300, stopChan := Chan.isOpen } 0 1 " India ").cache
      5 6 "INDIA").country
      = some { Name := "India", Capital := "New Delhi", Currency := "₹",
               Population := 1417492000 } :=
  (C10_normalised_key_cache_hit (fun ch => decide (ch = ' ')) Char.toLower
    (fun _ => (some { Name := "India", Capital := "New Delhi", Currency := "₹",
                      Population := 1417492000 }, none))
    (fun _ => (none, some GoError.ErrAPIFailure))
    { items := GoMap.make, ttl := 300, stopChan := Chan.isOpen } " India " "INDIA"
    (some { Name := "India", Capital := "New Delhi", Currency := "₹",
            Population := 1417492000 })
    0 1 5 6 (by decide) (by decide) rfl rfl (by decide)).2.2.2.2.1

/-- C11. Failed lookups are never cached: when `SearchCountry` calls the client
and the client answers the error `e`, it returns `(nil, e)` and leaves the cache
in the state it found, so that a later lookup of the same name on that cache
calls the client again; and whenever `SearchCountry` returns an error, whatever
its source, the cache is in the state it was in before the call. -/
theorem C11_failed_lookups_not_cached (isSpace : Char → Bool) (lower : Char → Char)
    (client client2 : String → Option Country × Option GoError)
    (cache : InMemoryCache Dyn) (tGet tSet tGet2 tSet2 : Time) (name : String) (e : GoError)
    (hcalled : (SearchCountry isSpace lower client cache tGet tSet name).calls ≠ [])
    (herr : (client (TrimSpace isSpace name)).2 = some e)
    (htime : tGet ≤ tGet2) :
    (SearchCountry isSpace lower client cache tGet tSet name).country = none ∧
    (SearchCountry isSpace lower client cache tGet tSet name).err = some e ∧
    (SearchCountry isSpace lower client cache tGet tSet name).cache = cache ∧
    (SearchCountry isSpace lower client cache tGet tSet name).calls =
      [TrimSpace isSpace name] ∧
    (SearchCountry isSpace lower client2
      (SearchCountry isSpace lower client cache tGet tSet name).cache tGet2 tSet2 name).calls =
      [TrimSpace isSpace name] ∧
    (∀ (client3 : String → Option Country × Option GoError) (cache3 : InMemoryCache Dyn)
      (t3 t4 : Time) (name3 : String),
      (SearchCountry isSpace lower client3 cache3 t3 t4 name3).err ≠ none →
      (SearchCountry isSpace lower client3 cache3 t3 t4 name3).cache = cache3) := by
  have hn : TrimSpace isSpace name ≠ "" := by
    intro h
    simp [SearchCountry, h] at hcalled
  have hmiss : ¬ ((cache.Get tGet (ToLower lower (TrimSpace isSpace name))).2 = true ∧
      (Dyn.asCountryPtr (cache.Get tGet (ToLower lower (TrimSpace isSpace name))).1).2
        = true) := by
    intro h
    simp [SearchCountry, hn, h.1, h.2] at hcalled
  have hfirst : SearchCountry isSpace lower client cache tGet tSet name =
      { country := none, err := some e, cache := cache, calls := [TrimSpace isSpace name] } := by
    by_cases h1 : (cache.Get tGet (ToLower lower (TrimSpace isSpace name))).2 = true
    · have h2 : ¬ (Dyn.asCountryPtr
          (cache.Get tGet (ToLower lower (TrimSpace isSpace name))).1).2 = true :=
        fun h => hmiss ⟨h1, h⟩
      simp [SearchCountry, hn, h1, h2, herr]
    · simp [SearchCountry, hn, h1, herr]
  have hmiss2 : ¬ ((cache.Get tGet2 (ToLower lower (TrimSpace isSpace name))).2 = true ∧
      (Dyn.asCountryPtr (cache.Get tGet2 (ToLower lower (TrimSpace isSpace name))).1).2
        = true) := by
    intro h
    have heq := InMemoryCache.Get_earlier cache tGet tGet2 _ htime h.1
    exact hmiss (by rw [heq]; exact h)
  have hsecond : (SearchCountry isSpace lower client2 cache tGet2 tSet2 name).calls =
      [TrimSpace isSpace name] := by
    rcases SearchCountry_calls isSpace lower client2 cache tGet2 tSet2 name with h | h
    · exfalso
      by_cases h1 : (cache.Get tGet2 (ToLower lower (TrimSpace isSpace name))).2 = true
      · have h2 : ¬ (Dyn.asCountryPtr
            (cache.Get tGet2 (ToLower lower (TrimSpace isSpace name))).1).2 = true :=
          fun h => hmiss2 ⟨h1, h⟩
        cases ha : (client2 (TrimSpace isSpace name)).2 <;>
          simp [SearchCountry, hn, h1, h2, ha] at h
      · cases ha : (client2 (TrimSpace isSpace name)).2 <;>
          simp [SearchCountry, hn, h1, ha] at h
    · exact h
  rw [hfirst]
  exact ⟨rfl, rfl, rfl, rfl, hsecond, fun client3 cache3 t3 t4 name3 h =>
    SearchCountry_err_cache isSpace lower client3 cache3 t3 t4 name3 h⟩

/-- Witness of C11: on an empty cache the lookup of `"Nonexistent"` is answered
`ErrCountryNotFound` by the client, as in `TestCountryService_SearchCountry_ClientError`. -/
theorem C11_failed_lookups_not_cached_witness :
    (SearchCountry (fun ch => decide (ch = ' ')) Char.toLower
      (fun _ => (none, some GoError.ErrCountryNotFound))
      { items := GoMap.make, ttl := 300, stopChan := Chan.isOpen } 0 1 "Nonexistent").err
      = some GoError.ErrCountryNotFound :=
  (C11_failed_lookups_not_cached (fun ch => decide (ch = ' ')) Char.toLower
    (fun _ => (none, some GoError.ErrCountryNotFound))
    (fun _ => (none, some GoError.ErrCountryNotFound))
    { items := GoMap.make, ttl := 300, stopChan := Chan.isOpen } 0 1 5 6 "Nonexistent"
    GoError.ErrCountryNotFound (by decide) rfl (by decide)).2.1

/-- C12. Error-to-status mapping: for an error `e`, wrapped or not, the handler
answers 404 exactly when `e` is `ErrCountryNotFound`, 400 exactly when it is
`ErrInvalidRequest`, 504 exactly when it is `ErrTimeout`, 502 exactly when it is
`ErrAPIFailure`, and 500 exactly when it is none of them; and for a GET request
with a name, `Search` answers an error `e` of the service in this way, and a nil
error with 200 and the country record. -/
theorem C12_error_to_status (e : GoError) :
    ((CountryHandler.handleServiceError e).status = 404 ↔
      errorsIs e GoError.ErrCountryNotFound = true) ∧
    ((CountryHandler.handleServiceError e).status = 400 ↔
      errorsIs e GoError.ErrInvalidRequest = true) ∧
    ((CountryHandler.handleServiceError e).status = 504 ↔
      errorsIs e GoError.ErrTimeout = true) ∧
    ((CountryHandler.handleServiceError e).status = 502 ↔
      errorsIs e GoError.ErrAPIFailure = true) ∧
    ((CountryHandler.handleServiceError e).status = 500 ↔
      (errorsIs e GoError.ErrCountryNotFound = false ∧
        errorsIs e GoError.ErrInvalidRequest = false ∧
        errorsIs e GoError.ErrTimeout = false ∧ errorsIs e GoError.ErrAPIFailure = false)) ∧
    (∀ msg, CountryHandler.handleServiceError (GoError.wrap msg e) =
      CountryHandler.handleServiceError e) ∧
    (∀ (isSpace : Char → Bool) (lower : Char → Char)
      (client : String → Option Country × Option GoError) (cache : InMemoryCache Dyn)
      (tGet tSet : Time) (r : Request),
      r.Method = MethodGet → Values.Get r.Query "name" ≠ "" →
      ((SearchCountry isSpace lower client cache tGet tSet (Values.Get r.Query "name")).err
          = some e →
        (CountryHandler.Search isSpace lower client cache tGet tSet r).response =
          CountryHandler.handleServiceError e) ∧
      ((SearchCountry isSpace lower client cache tGet tSet (Values.Get r.Query "name")).err
          = none →
        (CountryHandler.Search isSpace lower client cache tGet tSet r).response =
          { status := 200, contentType := "application/json"
            body := Payload.country
              (SearchCountry isSpace lower client cache tGet tSet
                (Values.Get r.Query "name")).country })) := by
  refine ⟨?_, ?_, ?_, ?_, ?_, fun msg => handleServiceError_wrap msg e, ?_⟩
  · rcases errorsIs_cases e with h | h | h | h | h <;>
      obtain ⟨h1, h2, h3, h4⟩ := h <;>
      simp [CountryHandler.handleServiceError, CountryHandler.writeError,
        CountryHandler.writeJSON, h1, h2, h3, h4, StatusNotFound, StatusBadRequest,
        StatusGatewayTimeout, StatusBadGateway, StatusInternalServerError]
  · rcases errorsIs_cases e with h | h | h | h | h <;>
      obtain ⟨h1, h2, h3, h4⟩ := h <;>
      simp [CountryHandler.handleServiceError, CountryHandler.writeError,
        CountryHandler.writeJSON, h1, h2, h3, h4, StatusNotFound, StatusBadRequest,
        StatusGatewayTimeout, StatusBadGateway, StatusInternalServerError]
  · rcases errorsIs_cases e with h | h | h | h | h <;>
      obtain ⟨h1, h2, h3, h4⟩ := h <;>
      simp [CountryHandler.handleServiceError, CountryHandler.writeError,
        CountryHandler.writeJSON, h1, h2, h3, h4, StatusNotFound, StatusBadRequest,
        StatusGatewayTimeout, StatusBadGateway, StatusInternalServerError]
  · rcases errorsIs_cases e with h | h | h | h | h <;>
      obtain ⟨h1, h2, h3, h4⟩ := h <;>
      simp [CountryHandler.handleServiceError, CountryHandler.writeError,
        CountryHandler.writeJSON, h1, h2, h3, h4, StatusNotFound, StatusBadRequest,
        StatusGatewayTimeout, StatusBadGateway, StatusInternalServerError]
  · rcases errorsIs_cases e with h | h | h | h | h <;>
      obtain ⟨h1, h2, h3, h4⟩ := h <;>
      simp [CountryHandler.handleServiceError, CountryHandler.writeError,
        CountryHandler.writeJSON, h1, h2, h3, h4, StatusNotFound, StatusBadRequest,
        StatusGatewayTimeout, StatusBadGateway, StatusInternalServerError]
  · intro isSpace lower client cache tGet tSet r hget hname
    constructor
    · intro herr
      simp [CountryHandler.Search, hget, hname, herr]
    · intro herr
      simp [CountryHandler.Search, hget, hname, herr, CountryHandler.writeJSON, StatusOK]

/-- Witness of C12: a GET request for `India` while the client answers a wrapped
`ErrAPIFailure`, as `SearchByName` does on a status other than 200 and 404. -/
theorem C12_error_to_status_witness :
    (CountryHandler.Search (fun ch => decide (ch = ' ')) Char.toLower
      (fun _ => (none, some (GoError.wrap "status code 500" GoError.ErrAPIFailure)))
      { items := GoMap.make, ttl := 300, stopChan := Chan.isOpen } 0 1
      { Method := "GET", Query := GoMap.make.set "name" ["India"] }).response.status = 502 :=
  ((C12_error_to_status (GoError.wrap "status code 500" GoError.ErrAPIFailure)).2.2.2.2.2.2
      (fun ch => decide (ch = ' ')) Char.toLower
      (fun _ => (none, some (GoError.wrap "status code 500" GoError.ErrAPIFailure)))
      { items := GoMap.make, ttl := 300, stopChan := Chan.isOpen } 0 1
      { Method := "GET", Query := GoMap.make.set "name" ["India"] }
      rfl (by decide)).1 rfl ▸
    ((C12_error_to_status (GoError.wrap "status code 500" GoError.ErrAPIFailure)).2.2.2.1.2
      (by decide))

/-- C13, the claim as stated fails: a POST request for `India` is answered with
405, not with 400. -/
theorem C13_post_is_answered_405 :
    (CountryHandler.Search (fun ch => decide (ch = ' ')) Char.toLower
      (fun _ => (none, some GoError.ErrAPIFailure))
      { items := GoMap.make, ttl := 300, stopChan := Chan.isOpen } 0 1
      { Method := "POST", Query := GoMap.make.set "name" ["India"] }).response.status = 405 ∧
    (CountryHandler.Search (fun ch => decide (ch = ' ')) Char.toLower
      (fun _ => (none, some GoError.ErrAPIFailure))
      { items := GoMap.make, ttl := 300, stopChan := Chan.isOpen } 0 1
      { Method := "POST", Query := GoMap.make.set "name" ["India"] }).response.status ≠ 400 :=
  ⟨by decide, by decide⟩

/-- C13, amended. Non-GET requests get 405: for every request whose method is not
GET, whatever its name parameter, the handler answers with status 405 and the
error `Method not allowed`, and calls neither the service nor the client; the
cache stays as it is. -/
theorem C13_non_get_method_not_allowed (isSpace : Char → Bool) (lower : Char → Char)
    (client : String → Option Country × Option GoError) (cache : InMemoryCache Dyn)
    (tGet tSet : Time) (r : Request) (hmethod : r.Method ≠ "GET") :
    (CountryHandler.Search isSpace lower client cache tGet tSet r).response =
      { status := 405, contentType := "application/json"
        body := Payload.failure
          { Error := "Method not allowed", Message := "Only GET method is supported" } } ∧
    (CountryHandler.Search isSpace lower client cache tGet tSet r).searched = [] ∧
    (CountryHandler.Search isSpace lower client cache tGet tSet r).calls = [] ∧
    (CountryHandler.Search isSpace lower client cache tGet tSet r).cache = cache := by
  have h : r.Method ≠ MethodGet := hmethod
  simp [CountryHandler.Search, h, CountryHandler.writeError, CountryHandler.writeJSON,
    StatusMethodNotAllowed]

/-- Witness of C13: the request of `TestCountryHandler_Search_WrongMethod`. -/
theorem C13_non_get_method_not_allowed_witness :
    (CountryHandler.Search (fun ch => decide (ch = ' ')) Char.toLower
      (fun _ => (none, some GoError.ErrAPIFailure))
      { items := GoMap.make, ttl := 300, stopChan := Chan.isOpen } 0 1
      { Method := "POST", Query := GoMap.make.set "name" ["India"] }).searched = [] :=
  (C13_non_get_method_not_allowed (fun ch => decide (ch = ' ')) Char.toLower
    (fun _ => (none, some GoError.ErrAPIFailure))
    { items := GoMap.make, ttl := 300, stopChan := Chan.isOpen } 0 1
    { Method := "POST", Query := GoMap.make.set "name" ["India"] } (by decide)).2.1

/-- C14. Missing or blank name gives 400 without an upstream call: for a GET
request whose name parameter is absent, empty or made of white space only, the
status is 400, the client is not called, the cache stays as it is, and the
response is the same whatever the client, the cache and the clock are. An empty
name is turned down by the handler without a call of the service; a name of white
space reaches `SearchCountry`, which returns `ErrInvalidRequest` at once. -/
theorem C14_blank_name_bad_request (isSpace : Char → Bool) (lower : Char → Char)
    (client : String → Option Country × Option GoError) (cache : InMemoryCache Dyn)
    (tGet tSet : Time) (r : Request) (hmethod : r.Method = "GET")
    (hblank : ∀ ch ∈ (Values.Get r.Query "name").data, isSpace ch = true) :
    (CountryHandler.Search isSpace lower client cache tGet tSet r).response.status = 400 ∧
    (CountryHandler.Search isSpace lower client cache tGet tSet r).calls = [] ∧
    (CountryHandler.Search isSpace lower client cache tGet tSet r).cache = cache ∧
    (∀ (client2 : String → Option Country × Option GoError) (cache2 : InMemoryCache Dyn)
      (t3 t4 : Time),
      (CountryHandler.Search isSpace lower client2 cache2 t3 t4 r).response =
        (CountryHandler.Search isSpace lower client cache tGet tSet r).response) ∧
    (r.Query.get "name" = none → Values.Get r.Query "name" = "") ∧
    (Values.Get r.Query "name" = "" →
      (CountryHandler.Search isSpace lower client cache tGet tSet r).searched = []) ∧
    (Values.Get r.Query "name" ≠ "" →
      (CountryHandler.Search isSpace lower client cache tGet tSet r).searched =
        [Values.Get r.Query "name"] ∧
      SearchCountry isSpace lower client cache tGet tSet (Values.Get r.Query "name") =
        { country := none, err := some GoError.ErrInvalidRequest, cache := cache,
          calls := [] }) := by
  have hget : ¬ r.Method ≠ MethodGet := fun h => h hmethod
  have htrim := TrimSpace_blank isSpace _ hblank
  have hsvc : ∀ (client2 : String → Option Country × Option GoError)
      (cache2 : InMemoryCache Dyn) (t3 t4 : Time),
      SearchCountry isSpace lower client2 cache2 t3 t4 (Values.Get r.Query "name") =
        { country := none, err := some GoError.ErrInvalidRequest, cache := cache2,
          calls := [] } := by
    intro client2 cache2 t3 t4
    simp [SearchCountry, htrim]
  have hresp : ∀ (client2 : String → Option Country × Option GoError)
      (cache2 : InMemoryCache Dyn) (t3 t4 : Time),
      CountryHandler.Search isSpace lower client2 cache2 t3 t4 r =
        if Values.Get r.Query "name" = "" then
          { response := CountryHandler.writeError StatusBadRequest "Invalid request"
              "Query parameter 'name' is required"
            cache := cache2, calls := [], searched := [] }
        else
          { response := CountryHandler.handleServiceError GoError.ErrInvalidRequest
            cache := cache2, calls := [], searched := [Values.Get r.Query "name"] } := by
    intro client2 cache2 t3 t4
    by_cases hname : Values.Get r.Query "name" = ""
    · simp [CountryHandler.Search, hget, hname]
    · simp [CountryHandler.Search, hget, hname, hsvc client2 cache2 t3 t4]
  refine ⟨?_, ?_, ?_, ?_, ?_, ?_, ?_⟩
  · rw [hresp]
    by_cases hname : Values.Get r.Query "name" = ""
    · simp [hname, CountryHandler.writeError, CountryHandler.writeJSON, StatusBadRequest]
    · simp [hname, CountryHandler.handleServiceError, errorsIs, CountryHandler.writeError,
        CountryHandler.writeJSON, StatusBadRequest]
  · rw [hresp]; split <;> rfl
  · rw [hresp]; split <;> rfl
  · intro client2 cache2 t3 t4
    rw [hresp, hresp]
    split <;> rfl
  · intro habsent
    simp [Values.Get, habsent]
  · intro hname
    rw [hresp]; simp [hname]
  · intro hname
    refine ⟨?_, hsvc client cache tGet tSet⟩
    rw [hresp]; simp [hname]

/-- Witness of C14: a GET request whose name parameter is three blanks. -/
theorem C14_blank_name_bad_request_witness :
    (CountryHandler.Search (fun ch => decide (ch = ' ')) Char.toLower
      (fun _ => (none, some GoError.ErrAPIFailure))
      { items := GoMap.make, ttl := 300, stopChan := Chan.isOpen } 0 1
      { Method := "GET", Query := GoMap.make.set "name" ["   "] }).response.status = 400 :=
  (C14_blank_name_bad_request (fun ch => decide (ch = ' ')) Char.toLower
    (fun _ => (none, some GoError.ErrAPIFailure))
    { items := GoMap.make, ttl := 300, stopChan := Chan.isOpen } 0 1
    { Method := "GET", Query := GoMap.make.set "name" ["   "] } rfl (by decide)).1

/-- C16. Upstream record mapping: whatever the order in which `range` visits the
currencies, `convertToCountry(r)` has the name `r.Name.Common` and the population
of `r`; its capital is the first element of `r.Capital`, or empty when there is
none; its currency is empty when `r.Currencies` is empty, the symbol of the only
currency when there is one, and the symbol of an entry of `r.Currencies` when
there are several. The record of India of the client test maps to
`{India, New Delhi, ₹, 1417492000}`. -/
theorem C16_upstream_record_mapping (resp : RestCountryResponse)
    (visit : List (String × Currency))
    (hvisit : ∀ entry, entry ∈ visit ↔ entry ∈ resp.Currencies.entries) :
    (convertToCountryIn visit resp).Name = resp.Name.Common ∧
    (convertToCountryIn visit resp).Population = resp.Population ∧
    (resp.Capital = [] → (convertToCountryIn visit resp).Capital = "") ∧
    (∀ first rest, resp.Capital = first :: rest →
      (convertToCountryIn visit resp).Capital = first) ∧
    (resp.Currencies.len = 0 → (convertToCountryIn visit resp).Currency = "") ∧
    (resp.Currencies.len = 1 → ∀ code cur, resp.Currencies.get code = some cur →
      (convertToCountryIn visit resp).Currency = cur.Symbol) ∧
    (resp.Currencies.len ≠ 0 →
      ∃ code cur, resp.Currencies.get code = some cur ∧
        (convertToCountryIn visit resp).Currency = cur.Symbol) ∧
    convertToCountry
      { Name := { Common := "India", Official := "Republic of India" }
        Capital := ["New Delhi"]
        Currencies := GoMap.make.set "INR" { Name := "Indian rupee", Symbol := "₹" }
        Population := 1417492000 } =
      { Name := "India", Capital := "New Delhi", Currency := "₹", Population := 1417492000 } := by
  have hcur : ∀ entry rest, visit = entry :: rest →
      (convertToCountryIn visit resp).Currency = entry.2.Symbol := by
    intro entry rest hv
    simp only [convertToCountryIn, hv]
  have hnone : visit = [] → (convertToCountryIn visit resp).Currency = "" := by
    intro hv
    simp only [convertToCountryIn, hv]
    cases resp.Capital <;> rfl
  refine ⟨?_, ?_, ?_, ?_, ?_, ?_, ?_, rfl⟩
  · simp only [convertToCountryIn]
    cases visit <;> cases resp.Capital <;> rfl
  · simp only [convertToCountryIn]
    cases visit <;> cases resp.Capital <;> rfl
  · intro hcap
    simp only [convertToCountryIn, hcap]
    cases visit <;> rfl
  · intro first rest hcap
    simp only [convertToCountryIn, hcap]
    cases visit <;> rfl
  · intro hlen
    have hentries : resp.Currencies.entries = [] := List.length_eq_zero.1 hlen
    apply hnone
    cases hv : visit with
    | nil => rfl
    | cons entry rest =>
      have : entry ∈ resp.Currencies.entries := (hvisit entry).1 (hv ▸ List.mem_cons_self _ _)
      rw [hentries] at this
      simp at this
  · intro hlen code cur hget
    obtain ⟨only, honly⟩ := List.length_eq_one.1 hlen
    have hmem : (code, cur) ∈ resp.Currencies.entries := GoMap.find_some_mem code cur _ hget
    rw [honly] at hmem
    have hcode : (code, cur) = only := by simpa using hmem
    cases hv : visit with
    | nil =>
      have : only ∈ visit := (hvisit only).2 (by rw [honly]; exact List.mem_cons_self _ _)
      rw [hv] at this
      simp at this
    | cons entry rest =>
      have hin : entry ∈ resp.Currencies.entries :=
        (hvisit entry).1 (hv ▸ List.mem_cons_self _ _)
      rw [honly] at hin
      have hentry : entry = only := by simpa using hin
      rw [← hv, hcur entry rest hv, hentry, ← hcode]
  · intro hlen
    cases hv : visit with
    | nil =>
      exfalso
      apply hlen
      cases he : resp.Currencies.entries with
      | nil => simp [GoMap.len, he]
      | cons entry rest =>
        have : entry ∈ visit := (hvisit entry).2 (he ▸ List.mem_cons_self _ _)
        rw [hv] at this
        simp at this
    | cons entry rest =>
      have hin : entry ∈ resp.Currencies.entries :=
        (hvisit entry).1 (hv ▸ List.mem_cons_self _ _)
      refine ⟨entry.1, entry.2, ?_, ?_⟩
      · exact GoMap.mem_find _ resp.Currencies.nodup entry.1 entry.2 hin
      · rw [← hv]; exact hcur entry rest hv

/-- Witness of C16: a record with two capitals and two currencies, visited in
the order opposite to that of the list. -/
theorem C16_upstream_record_mapping_witness :
    (convertToCountryIn [("USD", { Name := "United States dollar", Symbol := "$" }),
        ("ZAR", { Name := "South African rand", Symbol := "R" })]
      { Name := { Common := "Lesotho", Official := "Kingdom of Lesotho" }
        Capital := ["Maseru", "Other"]
        Currencies := (GoMap.make.set "USD"
          { Name := "United States dollar", Symbol := "$" }).set "ZAR"
          { Name := "South African rand", Symbol := "R" }
        Population := 2142252 }).Capital = "Maseru" :=
  (C16_upstream_record_mapping
    { Name := { Common := "Lesotho", Official := "Kingdom of Lesotho" }
      Capital := ["Maseru", "Other"]
      Currencies := (GoMap.make.set "USD"
        { Name := "United States dollar", Symbol := "$" }).set "ZAR"
        { Name := "South African rand", Symbol := "R" }
      Population := 2142252 }
    [("USD", { Name := "United States dollar", Symbol := "$" }),
      ("ZAR", { Name := "South African rand", Symbol := "R" })]
    (by
      intro entry
      simp [GoMap.set, GoMap.delete, GoMap.make, or_comm])).2.2.2.1 "Maseru" ["Other"] rfl

end CountryApi
